import Mathlib

/-!
Verification of the SQLiteVSS vector store
(`libs/langchain/langchain/vectorstores/sqlitevss.py`).

The development shallowly embeds the store: the SQLite database reached
through the store's connection is a `DB` record (primary table rows, the
paired `vss_{table}` virtual-table rows, and flags recording which DDL
objects exist); Python's `json.dumps`/`json.loads` are embedded as an
executable printer/parser pair over a `Json` inductive; floats are embedded
as exact decimal numbers (`PyFloat`), which covers every value the decimal
text format of the serialized embeddings can carry; exact rational
arithmetic for distances uses an unnormalized fraction type `Frac` so that
all computations reduce inside the kernel.
-/

namespace SqliteVss

/-- The JSON value model for Python's `json` module as used by the store:
`int` is a Python int, `flt m e` is a Python float written in plain decimal
with exactly `e + 1` fraction digits and value `m / 10 ^ (e + 1)` (floats
always serialize with a decimal point, e.g. `1.0`, so they are kept apart
from ints; exponent notation, NaN and infinities are outside the model). -/
inductive Json where
  | null
  | bool (b : Bool)
  | int (n : Int)
  | flt (m : Int) (e : Nat)
  | str (s : String)
  | arr (elems : List Json)
  | obj (members : List (String × Json))
deriving Repr

/-- The opening-brace character, kept as a named constant. -/
def lbrace : Char := Char.ofNat 123

/-- The closing-brace character, kept as a named constant. -/
def rbrace : Char := Char.ofNat 125

/-- Lowercase hex digit for `d < 16`, as printed by Python's `\uXXXX`
escapes (`'\u%04x'`). -/
def toHexDigit (d : Nat) : Char := Char.ofNat (if d < 10 then 48 + d else 87 + d)

/-- Four lowercase hex digits of `n < 65536`. -/
def toHex4 (n : Nat) : List Char :=
  [toHexDigit (n / 4096 % 16), toHexDigit (n / 256 % 16),
   toHexDigit (n / 16 % 16), toHexDigit (n % 16)]

/-- Escape of a single character, following `json.encoder`'s ASCII encoder
(the default `ensure_ascii=True` of `json.dumps`): quote and backslash get
two-character escapes, the five named control characters use `\b \t \n
\f \r`, other characters below 0x20 and all characters above 0x7e use
`\uXXXX` (astral characters as a surrogate pair). -/
def escChar (c : Char) : List Char :=
  if c = '"' then ['\\', '"']
  else if c = '\\' then ['\\', '\\']
  else if c.toNat = 8 then ['\\', 'b']
  else if c.toNat = 9 then ['\\', 't']
  else if c.toNat = 10 then ['\\', 'n']
  else if c.toNat = 12 then ['\\', 'f']
  else if c.toNat = 13 then ['\\', 'r']
  else if c.toNat < 32 then '\\' :: 'u' :: toHex4 c.toNat
  else if c.toNat ≤ 126 then [c]
  else if c.toNat < 65536 then '\\' :: 'u' :: toHex4 c.toNat
  else
    '\\' :: 'u' :: toHex4 (55296 + (c.toNat - 65536) / 1024) ++
      '\\' :: 'u' :: toHex4 (56320 + (c.toNat - 65536) % 1024)

/-- Escape of a whole string body (without the surrounding quotes). -/
def escString : List Char → List Char
  | [] => []
  | c :: cs => escChar c ++ escString cs

/-- Decimal digit character for `d < 10`. -/
def digitChar (d : Nat) : Char := Char.ofNat (48 + d)

/-- Little-endian decimal digits of `n`, with explicit fuel so the
definition is structural and kernel-reducible; `fuel ≥ n` suffices. -/
def natDigitsLE : Nat → Nat → List Nat
  | 0, _ => []
  | fuel + 1, n => if n = 0 then [] else n % 10 :: natDigitsLE fuel (n / 10)

/-- Decimal text of a natural number, no sign, no leading zeros
(except `"0"` itself). -/
def printNat (n : Nat) : List Char :=
  if n = 0 then ['0'] else ((natDigitsLE n n).map digitChar).reverse

/-- Decimal text of an integer, as Python prints ints. -/
def printInt (m : Int) : List Char :=
  if m < 0 then '-' :: printNat m.natAbs else printNat m.natAbs

/-- Exactly `k` decimal digits of `n < 10 ^ k`, most significant first
(zero-padded on the left). -/
def printNatPad : Nat → Nat → List Char
  | 0, _ => []
  | k + 1, n => digitChar (n / 10 ^ k) :: printNatPad k (n % 10 ^ k)

/-- Decimal text of the non-negative float with integer significand `a`
and `e + 1` fraction digits: integer part, a point, then the zero-padded
fraction digits (Python always prints at least one fraction digit). -/
def printFltAbs (a : Nat) (e : Nat) : List Char :=
  printNat (a / 10 ^ (e + 1)) ++ '.' :: printNatPad (e + 1) (a % 10 ^ (e + 1))

/-- Decimal text of a float value `m / 10 ^ (e + 1)`, with its sign. -/
def printFlt (m : Int) (e : Nat) : List Char :=
  if m < 0 then '-' :: printFltAbs m.natAbs e else printFltAbs m.natAbs e

mutual

/-- Serializer for `Json`, producing exactly the text `json.dumps` emits
with its default arguments (separators `", "` and `": "`, ASCII escapes). -/
def printJson : Json → List Char
  | .null => 'n' :: 'u' :: 'l' :: ['l']
  | .bool true => 't' :: 'r' :: 'u' :: ['e']
  | .bool false => 'f' :: 'a' :: 'l' :: 's' :: ['e']
  | .int m => printInt m
  | .flt m e => printFlt m e
  | .str s => '"' :: escString s.data ++ ['"']
  | .arr xs => '[' :: printElems xs ++ [']']
  | .obj kvs => lbrace :: printMembers kvs ++ [rbrace]

/-- Array elements, joined by `json.dumps`'s default item separator `", "`. -/
def printElems : List Json → List Char
  | [] => []
  | [x] => printJson x
  | x :: y :: xs => printJson x ++ ',' :: ' ' :: printElems (y :: xs)

/-- Object members `"key": value`, joined by `", "`. -/
def printMembers : List (String × Json) → List Char
  | [] => []
  | [(k, v)] => '"' :: escString k.data ++ '"' :: ':' :: ' ' :: printJson v
  | (k, v) :: kv :: kvs =>
    '"' :: escString k.data ++ '"' :: ':' :: ' ' :: printJson v ++
      ',' :: ' ' :: printMembers (kv :: kvs)

end

/-- Embedding of `json.dumps` with default arguments. -/
def Json.dumps (j : Json) : String := String.mk (printJson j)

/-- JSON insignificant whitespace. -/
def isWsChar (c : Char) : Bool :=
  c.toNat = 32 || c.toNat = 9 || c.toNat = 10 || c.toNat = 13

/-- Drop leading insignificant whitespace. -/
def skipWs : List Char → List Char
  | [] => []
  | c :: cs => if isWsChar c then skipWs cs else c :: cs

/-- Value of a hex digit character (both cases accepted, as in JSON). -/
def hexVal? (c : Char) : Option Nat :=
  if 48 ≤ c.toNat ∧ c.toNat ≤ 57 then some (c.toNat - 48)
  else if 97 ≤ c.toNat ∧ c.toNat ≤ 102 then some (c.toNat - 87)
  else if 65 ≤ c.toNat ∧ c.toNat ≤ 70 then some (c.toNat - 55)
  else none

/-- Read exactly four hex digits. -/
def parseHex4 : List Char → Option (Nat × List Char)
  | a :: b :: c :: d :: rest =>
    match hexVal? a, hexVal? b, hexVal? c, hexVal? d with
    | some x, some y, some z, some w => some (x * 4096 + y * 256 + z * 16 + w, rest)
    | _, _, _, _ => none
  | _ => none

/-- Single-character escapes accepted after a backslash. -/
def unescChar? (c : Char) : Option Char :=
  if c = '"' then some '"'
  else if c = '\\' then some '\\'
  else if c = '/' then some '/'
  else if c = 'b' then some (Char.ofNat 8)
  else if c = 't' then some (Char.ofNat 9)
  else if c = 'n' then some (Char.ofNat 10)
  else if c = 'f' then some (Char.ofNat 12)
  else if c = 'r' then some (Char.ofNat 13)
  else none

/-- Decoding of one escape sequence after a backslash, as `json.loads`
does: `\uXXXX` escapes (a high surrogate requiring its paired low
surrogate — lone surrogates yield Python strings outside this model and
are rejected), or a single-character escape. -/
def parseEsc : List Char → Option (Char × List Char)
  | [] => none
  | e :: cs1 =>
    if e = 'u' then
      match parseHex4 cs1 with
      | none => none
      | some (n, rest1) =>
        if 55296 ≤ n ∧ n ≤ 56319 then
          match rest1 with
          | b1 :: u1 :: rest2 =>
            if b1 = '\\' ∧ u1 = 'u' then
              match parseHex4 rest2 with
              | none => none
              | some (m, rest3) =>
                if 56320 ≤ m ∧ m ≤ 57343 then
                  some (Char.ofNat (65536 + (n - 55296) * 1024 + (m - 56320)), rest3)
                else none
            else none
          | _ => none
        else if 56320 ≤ n ∧ n ≤ 57343 then none
        else some (Char.ofNat n, rest1)
    else
      match unescChar? e with
      | none => none
      | some c1 => some (c1, cs1)

/-- Body of a JSON string after the opening quote, up to and including the
closing quote, decoding escapes through `parseEsc`. Fuel bounds the
recursion; any `fuel` larger than the decoded length suffices. -/
def parseStringBody : Nat → List Char → Option (List Char × List Char)
  | 0, _ => none
  | _ + 1, [] => none
  | fuel + 1, c :: cs =>
    if c = '"' then some ([], cs)
    else if c = '\\' then
      match parseEsc cs with
      | none => none
      | some (c1, rest) =>
        match parseStringBody fuel rest with
        | none => none
        | some (s, r) => some (c1 :: s, r)
    else if c.toNat < 32 then none
    else
      match parseStringBody fuel cs with
      | none => none
      | some (s, r) => some (c :: s, r)

/-- Decimal digit test. -/
def isDigitC (c : Char) : Bool := 48 ≤ c.toNat && c.toNat ≤ 57

/-- Value of a decimal digit character. -/
def digitVal (c : Char) : Nat := c.toNat - 48

/-- Greedily read decimal digits onto an accumulator. -/
def parseDigitsAcc : List Char → Nat → Nat × List Char
  | [], acc => (acc, [])
  | c :: cs, acc =>
    if isDigitC c then parseDigitsAcc cs (acc * 10 + digitVal c) else (acc, c :: cs)

/-- Greedily read decimal digits, also counting how many were read. -/
def parseDigitsCnt : List Char → Nat → Nat → Nat × Nat × List Char
  | [], acc, cnt => (acc, cnt, [])
  | c :: cs, acc, cnt =>
    if isDigitC c then parseDigitsCnt cs (acc * 10 + digitVal c) (cnt + 1)
    else (acc, cnt, c :: cs)

/-- Unsigned number: an integer if there is no decimal point, otherwise a
float whose significand keeps every written fraction digit. -/
def parseUNum : List Char → Option (Json × List Char)
  | [] => none
  | c :: cs =>
    if isDigitC c then
      match parseDigitsAcc (c :: cs) 0 with
      | (n, rest) =>
        match rest with
        | [] => some (Json.int (n : Int), [])
        | r1 :: rest1 =>
          if r1 = '.' then
            match rest1 with
            | [] => none
            | d :: _ =>
              if isDigitC d then
                match parseDigitsCnt rest1 0 0 with
                | (f, cnt, rest2) =>
                  some (Json.flt ((n * 10 ^ cnt + f : Nat) : Int) (cnt - 1), rest2)
              else none
          else some (Json.int (n : Int), r1 :: rest1)
    else none

/-- Negation of a parsed number literal. -/
def negJson : Json → Json
  | .int n => .int (-n)
  | .flt m e => .flt (-m) e
  | j => j

/-- Signed number literal. -/
def parseNum : List Char → Option (Json × List Char)
  | [] => none
  | c :: cs =>
    if c = '-' then
      match parseUNum cs with
      | none => none
      | some (j, r) => some (negJson j, r)
    else parseUNum (c :: cs)

mutual

/-- Recursive-descent JSON value parser (the core of `json.loads`). Fuel
bounds only the nesting recursion; any fuel at least the printed length of
the value suffices. -/
def parseVal : Nat → List Char → Option (Json × List Char)
  | 0, _ => none
  | fuel + 1, input =>
    match skipWs input with
    | [] => none
    | c :: cs =>
      if c = 'n' then
        match cs with
        | 'u' :: 'l' :: 'l' :: rest => some (.null, rest)
        | _ => none
      else if c = 't' then
        match cs with
        | 'r' :: 'u' :: 'e' :: rest => some (.bool true, rest)
        | _ => none
      else if c = 'f' then
        match cs with
        | 'a' :: 'l' :: 's' :: 'e' :: rest => some (.bool false, rest)
        | _ => none
      else if c = '"' then
        match parseStringBody (cs.length + 1) cs with
        | none => none
        | some (s, rest) => some (.str (String.mk s), rest)
      else if c = '[' then
        match skipWs cs with
        | [] => none
        | d :: ds =>
          if d = ']' then some (.arr [], ds)
          else
            match parseElems fuel (d :: ds) with
            | none => none
            | some (xs, rest) => some (.arr xs, rest)
      else if c = lbrace then
        match skipWs cs with
        | [] => none
        | d :: ds =>
          if d = rbrace then some (.obj [], ds)
          else
            match parseMembers fuel (d :: ds) with
            | none => none
            | some (kvs, rest) => some (.obj kvs, rest)
      else parseNum (c :: cs)

/-- Comma-separated array elements followed by the closing bracket. -/
def parseElems : Nat → List Char → Option (List Json × List Char)
  | 0, _ => none
  | fuel + 1, input =>
    match parseVal fuel input with
    | none => none
    | some (j, rest) =>
      match skipWs rest with
      | [] => none
      | c :: cs =>
        if c = ',' then
          match parseElems fuel cs with
          | none => none
          | some (xs, r) => some (j :: xs, r)
        else if c = ']' then some ([j], cs)
        else none

/-- Comma-separated object members followed by the closing brace. -/
def parseMembers : Nat → List Char → Option (List (String × Json) × List Char)
  | 0, _ => none
  | fuel + 1, input =>
    match skipWs input with
    | [] => none
    | c :: cs =>
      if c = '"' then
        match parseStringBody (cs.length + 1) cs with
        | none => none
        | some (k, rest1) =>
          match skipWs rest1 with
          | [] => none
          | c1 :: cs1 =>
            if c1 = ':' then
              match parseVal fuel cs1 with
              | none => none
              | some (v, rest2) =>
                match skipWs rest2 with
                | [] => none
                | c2 :: cs2 =>
                  if c2 = ',' then
                    match parseMembers fuel cs2 with
                    | none => none
                    | some (kvs, r) => some ((String.mk k, v) :: kvs, r)
                  else if c2 = rbrace then some ([(String.mk k, v)], cs2)
                  else none
            else none
      else none

end

/-- A remainder that cannot extend a just-parsed number literal: empty, or
starting with a character that is neither a digit nor a decimal point. -/
def numSafe : List Char → Prop
  | [] => True
  | c :: _ => isDigitC c = false ∧ c ≠ '.'

/-- A remainder whose head cannot extend a digit run. -/
def noDigitHead : List Char → Prop
  | [] => True
  | c :: _ => isDigitC c = false

mutual

/-- Fuel sufficient for `parseVal` to parse the printed form of a value. -/
def jfuel : Json → Nat
  | .arr xs => 1 + efuel xs
  | .obj kvs => 1 + mfuel kvs
  | _ => 1

/-- Fuel sufficient for `parseElems` over printed elements. -/
def efuel : List Json → Nat
  | [] => 0
  | x :: xs => 1 + jfuel x + efuel xs

/-- Fuel sufficient for `parseMembers` over printed members. -/
def mfuel : List (String × Json) → Nat
  | [] => 0
  | (_, v) :: kvs => 1 + jfuel v + mfuel kvs

end

/-- Embedding of `json.loads`: parse one value, then require only
whitespace to remain. -/
def Json.loads (s : String) : Option Json :=
  match parseVal (s.data.length + 1) s.data with
  | none => none
  | some (j, rest) =>
    match skipWs rest with
    | [] => some j
    | _ => none

/-- Exact rational number as an unnormalized fraction (numerator over a
positive denominator). Additions and multiplications cross-multiply and
never reduce, so every operation is kernel-computable; two `Frac`s denote
the same rational exactly when `Frac.leB` holds both ways. -/
structure Frac where
  num : Int
  den : Int
deriving DecidableEq, Repr

/-- Exact sum of two fractions. -/
def Frac.add (a b : Frac) : Frac := ⟨a.num * b.den + b.num * a.den, a.den * b.den⟩

/-- Exact difference of two fractions. -/
def Frac.sub (a b : Frac) : Frac := ⟨a.num * b.den - b.num * a.den, a.den * b.den⟩

/-- Exact product of two fractions. -/
def Frac.mul (a b : Frac) : Frac := ⟨a.num * b.num, a.den * b.den⟩

/-- Comparison of the denoted rationals (cross-multiplication; correct for
the positive denominators this development constructs). -/
def Frac.leB (a b : Frac) : Bool := a.num * b.den ≤ b.num * a.den

/-- A Python float as the exact decimal the serialized form carries:
value `m / 10 ^ (e + 1)`, written with `e + 1` fraction digits. The
embedding model works with these decimals; they are exactly the numbers
representable in the stored JSON text. -/
structure PyFloat where
  m : Int
  e : Nat
deriving DecidableEq, Repr

/-- The JSON number node a float serializes to. -/
def PyFloat.toJson (x : PyFloat) : Json := Json.flt x.m x.e

/-- The rational value of a float. -/
def PyFloat.val (x : PyFloat) : Frac := ⟨x.m, (10 : Int) ^ (x.e + 1)⟩

/-- JSON number node back to a float; anything else is not an embedding
vector entry. -/
def PyFloat.ofJson? : Json → Option PyFloat
  | .flt m e => some ⟨m, e⟩
  | _ => none

/-- The JSON array a Python list of floats serializes to — the argument of
`json.dumps(embed)` on the write path. -/
def vecJson (v : List PyFloat) : Json := .arr (v.map PyFloat.toJson)

/-- Decode a list of JSON number nodes back to floats; anything else is
not an embedding vector. -/
def vecOfJson? : List Json → Option (List PyFloat)
  | [] => some []
  | j :: js =>
    match PyFloat.ofJson? j, vecOfJson? js with
    | some x, some xs => some (x :: xs)
    | _, _ => none

/-- Deserialize a stored embedding blob back to the vector it encodes. -/
def decodeVec (s : String) : Option (List PyFloat) :=
  match Json.loads s with
  | some (.arr xs) => vecOfJson? xs
  | _ => none

/-- Squared Euclidean distance of two rational vectors, the shorter one
read as zero-padded. It is the square of the index's native Euclidean
metric, hence induces the same ordering of candidates; the model works
with it so that distances stay rational and computable. (The extension's
behavior on vectors of unequal length is not specified by this repository;
zero-padding is the model's choice and only the equal-length case is relied
on for confirmed claims.) Split into `sumSq` for the tail of the longer
vector and `sqDistAux`, structural on the first vector. -/
def sumSq : List Frac → Frac
  | [] => ⟨0, 1⟩
  | y :: ys => (y.mul y).add (sumSq ys)

/-- Squared distance, recursing on the first vector; see `sqDist`. -/
def sqDistAux : List Frac → List Frac → Frac
  | [], ys => sumSq ys
  | x :: xs, [] => (x.mul x).add (sqDistAux xs [])
  | x :: xs, y :: ys => ((x.sub y).mul (x.sub y)).add (sqDistAux xs ys)

/-- Squared Euclidean distance of two rational vectors; see `sumSq`. -/
def sqDist (a b : List Frac) : Frac := sqDistAux a b

/-- One row of the primary document table `{table}`: the raw text and the
two serialized blobs exactly as `add_texts` binds them
(`(text, json.dumps(metadata), json.dumps(embed))`). -/
structure Row where
  text : String
  metadata : String
  text_embedding : String
deriving DecidableEq, Repr

/-- The database state reachable through the store's connection: whether
each of the three DDL objects of `create_table_if_not_exists` exists
(primary table, `vss_{table}` virtual table with its fixed dimensionality,
`embed_text` trigger), the primary table's rows in insertion order (rowid
of `rows[i]` is `i + 1`, SQLite's successive rowid assignment for an
append-only table), and the virtual table's `(rowid, text_embedding)`
entries. -/
structure DB where
  hasTable : Bool
  rows : List Row
  hasVss : Bool
  vssDim : Option Nat
  vssRows : List (Nat × String)
  hasTrigger : Bool
deriving DecidableEq, Repr

/-- A freshly created database file with no objects in it. -/
def emptyDB : DB := ⟨false, [], false, none, [], false⟩

/-- The external embedding collaborator (spec section 6): deterministic,
one fixed-length float vector per text. `embed_documents` maps it over a
batch; `embed_query` applies it to one text. -/
def EmbedFn : Type := String → List PyFloat

/-- Batch interface of the embedding collaborator
(`embed_documents(list(texts))`). -/
def embed_documents (f : EmbedFn) (texts : List String) : List (List PyFloat) :=
  texts.map f

/-- Single-text interface of the embedding collaborator (`embed_query`). -/
def embed_query (f : EmbedFn) (t : String) : List PyFloat := f t

/-- Embedding of `SQLiteVSS.get_dimensionality`: embed the fixed dummy
text once and take the length. -/
def get_dimensionality (f : EmbedFn) : Nat :=
  (embed_query f "This is a dummy text").length

/-- Effect of the three `IF NOT EXISTS` DDL statements of
`create_table_if_not_exists` on the database: create the primary table if
absent, create the `vss_{table}` virtual table with width
`get_dimensionality()` if absent, create the `embed_text` trigger if
absent. Existing objects — and all stored rows — are untouched. -/
def DB.createSchema (f : EmbedFn) (db : DB) : DB :=
  let db1 := if db.hasTable then db else { db with hasTable := true }
  let db2 :=
    if db1.hasVss then db1
    else { db1 with hasVss := true, vssDim := some (get_dimensionality f) }
  if db2.hasTrigger then db2 else { db2 with hasTrigger := true }

/-- One `INSERT INTO {table}(text, metadata, text_embedding)` statement:
the new row gets rowid `rows.length + 1`, and — in the same statement, via
the `embed_text AFTER INSERT` trigger, when it exists — the virtual table
atomically receives `(new.rowid, new.text_embedding)`. -/
def DB.insertRow (db : DB) (r : Row) : DB :=
  let rowid := db.rows.length + 1
  let db1 := { db with rows := db.rows ++ [r] }
  if db.hasTrigger then { db1 with vssRows := db1.vssRows ++ [(rowid, r.text_embedding)] }
  else db1

/-- Effect of `executemany` over the prepared rows. -/
def DB.insertMany (db : DB) (rs : List Row) : DB := rs.foldl DB.insertRow db

/-- Python truthiness of the `metadatas` argument (`if not metadatas:`):
`None` and the empty list are falsy. -/
def pyTruthy : Option (List Json) → Bool
  | none => false
  | some [] => false
  | some (_ :: _) => true

/-- The `data_input` list `add_texts` prepares: embed every text, default a
falsy `metadatas` to one empty dict per text, then `zip` — which silently
truncates to the shortest of the three sequences — and serialize each
metadata and embedding with `json.dumps`. -/
def dataInput (f : EmbedFn) (texts : List String) (metadatas : Option (List Json)) :
    List Row :=
  let embeds := embed_documents f texts
  let mds :=
    if pyTruthy metadatas then metadatas.getD []
    else texts.map (fun _ => Json.obj [])
  (texts.zip (mds.zip embeds)).map
    (fun p => ⟨p.1, Json.dumps p.2.1, Json.dumps (vecJson p.2.2)⟩)

/-- Database effect of `add_texts`: bulk-insert the prepared rows. -/
def DB.addTexts (db : DB) (f : EmbedFn) (texts : List String)
    (metadatas : Option (List Json)) : DB :=
  db.insertMany (dataInput f texts metadatas)

/-- Python exceptions the embedded paths can raise. `nameErrorSqliteVss`
is the `NameError` raised when `create_connection` evaluates the
module-global name `sqlite_vss`, which is never bound at runtime. -/
inductive PyError where
  | attributeErrorNone
  | jsonDecodeError
  | nameErrorSqliteVss
deriving DecidableEq, Repr

/-- The store object: the fields `__init__` assigns. `_connection` is the
`Optional[sqlite3.Connection]` constructor argument as stored — possibly
`None`. -/
structure SQLiteVSS where
  _connection : Option DB
  _table : String
  _embedding : EmbedFn

/-- Embedding of the method `create_table_if_not_exists`: runs the three
DDL statements through `self._connection`; a `None` connection raises
`AttributeError` at the first `self._connection.execute`. -/
def SQLiteVSS.create_table_if_not_exists (st : SQLiteVSS) : Except PyError SQLiteVSS :=
  match st._connection with
  | none => .error .attributeErrorNone
  | some db => .ok { st with _connection := some (db.createSchema st._embedding) }

/-- Embedding of the static method `create_connection`: it opens (or
creates) the backing file with `sqlite3.connect` and then evaluates
`sqlite_vss.load(connection)`. In this snapshot `sqlite_vss` is imported
only as a name local to `__init__` (the module-level import is under
`TYPE_CHECKING` and does not run), so that module-global lookup is unbound
at runtime and every call raises `NameError` — after the local connection
is opened (that local has no observable effect) and before any value is
returned. -/
def create_connection (_db_file : String) : Except PyError DB :=
  let _connection := emptyDB
  .error .nameErrorSqliteVss

/-- Embedding of `__init__`: when the `connection` argument is falsy the
code calls `self.create_connection(db_file)`, whose result would be
discarded — but that call raises `NameError` (see `create_connection`) and
the exception propagates out of the constructor before any attribute is
assigned. Otherwise the original `connection` argument is stored unchanged
and `create_table_if_not_exists` runs. -/
def SQLiteVSS.init (table : String) (connection : Option DB) (embedding : EmbedFn)
    (db_file : String) : Except PyError SQLiteVSS :=
  let step : Except PyError Unit :=
    if connection.isNone then (create_connection db_file).map (fun _ => ()) else .ok ()
  match step with
  | .error e => .error e
  | .ok _ =>
    let st : SQLiteVSS :=
      { _connection := connection, _table := table, _embedding := embedding }
    st.create_table_if_not_exists

/-- Embedding of the method `add_texts`: prepare `data_input` and
bulk-insert it through the stored connection. -/
def SQLiteVSS.add_texts (st : SQLiteVSS) (texts : List String)
    (metadatas : Option (List Json)) : Except PyError SQLiteVSS :=
  match st._connection with
  | none => .error .attributeErrorNone
  | some db =>
    .ok { st with _connection := some (db.addTexts st._embedding texts metadatas) }

/-- Insertion into a list kept sorted by `le`. -/
def insertSorted (le : α → α → Bool) (x : α) : List α → List α
  | [] => [x]
  | y :: ys => if le x y then x :: y :: ys else y :: insertSorted le x ys

/-- Stable insertion sort by `le`. -/
def sortByLe (le : α → α → Bool) (l : List α) : List α :=
  l.foldr (insertSorted le) []

/-- The `vss_search` candidates: every virtual-table entry whose stored
blob decodes to a vector, paired with its squared Euclidean distance to
the query vector. -/
def DB.vssCandidates (db : DB) (q : List Frac) : List (Nat × Frac) :=
  db.vssRows.filterMap
    (fun p => (decodeVec p.2).map (fun v => (p.1, sqDist (v.map PyFloat.val) q)))

/-- The black-box `vss_search(..., vss_search_params(query, k))` call: the
`k` nearest stored vectors by the index's distance metric, ascending. -/
def DB.vssSearch (db : DB) (q : List Frac) (k : Nat) : List (Nat × Frac) :=
  (sortByLe (fun a b => Frac.leB a.2 b.2) (db.vssCandidates q)).take k

/-- The SQL query of `similarity_search_with_score_by_vector`: `vss_search`
over the virtual table, inner-joined on rowid back to the primary table,
yielding `(text, metadata, distance)` rows. No dimensionality check of any
kind is performed before issuing the query. -/
def DB.knnSearch (db : DB) (embedding : List PyFloat) (k : Nat) :
    List (String × String × Frac) :=
  (db.vssSearch (embedding.map PyFloat.val) k).filterMap
    (fun p => (db.rows.get? (p.1 - 1)).map (fun r => (r.text, r.metadata, p.2)))

/-- Modelled from the spec: `VectorStore._euclidean_relevance_score_fn`
lives in `langchain/vectorstores/base.py`, which is not under `src/`. Spec
section 4.5 fixes its contract: a monotonically non-decreasing transform of
the raw Euclidean distance, "score increases as distance increases". It is
modelled as the identity transform, the simplest such map (consistent with
the repository's integration test, which asserts
`scores[0] < scores[1] < scores[2]` for hits at increasing distances). -/
def euclideanRelevanceScoreFn (d : Frac) : Frac := d

/-- A returned document: page content plus deserialized metadata. -/
structure Document where
  page_content : String
  metadata : Json
deriving Repr

/-- Row post-processing loop of `similarity_search_with_score_by_vector`:
for each fetched `(text, metadata, distance)` row build
`Document(page_content=text, metadata=json.loads(metadata))` and attach the
relevance score computed from the raw distance; a metadata blob
`json.loads` cannot parse raises. -/
def buildDocs : List (String × String × Frac) → Except PyError (List (Document × Frac))
  | [] => .ok []
  | t :: ts =>
    match Json.loads t.2.1 with
    | some md =>
      match buildDocs ts with
      | .ok l => .ok ((⟨t.1, md⟩, euclideanRelevanceScoreFn t.2.2) :: l)
      | .error e => .error e
    | none => .error .jsonDecodeError

/-- Embedding of the result loop of `similarity_search_with_score_by_vector`
over the fetched rows; see `buildDocs`. -/
def DB.runQuery (db : DB) (embedding : List PyFloat) (k : Nat) :
    Except PyError (List (Document × Frac)) :=
  buildDocs (db.knnSearch embedding k)

/-- Embedding of the method `similarity_search_with_score_by_vector`. -/
def SQLiteVSS.similarity_search_with_score_by_vector (st : SQLiteVSS)
    (embedding : List PyFloat) (k : Nat) : Except PyError (List (Document × Frac)) :=
  match st._connection with
  | none => .error .attributeErrorNone
  | some db => db.runQuery embedding k

/-- Embedding of the method `similarity_search`: embed the query text
(modelled from the spec: the `self.embeddings` property the code reads is
defined in `langchain/vectorstores/base.py`, not under `src/`; spec section
4.5 says this entry point embeds the query text via the embedding function
and delegates), then delegate and strip the scores. -/
def SQLiteVSS.similarity_search (st : SQLiteVSS) (query : String) (k : Nat) :
    Except PyError (List Document) :=
  Except.map (List.map Prod.fst)
    (st.similarity_search_with_score_by_vector (embed_query st._embedding query) k)

/-- Embedding of the method `similarity_search_with_score`: embed the query
text and delegate, keeping the scores. -/
def SQLiteVSS.similarity_search_with_score (st : SQLiteVSS) (query : String) (k : Nat) :
    Except PyError (List (Document × Frac)) :=
  st.similarity_search_with_score_by_vector (embed_query st._embedding query) k

/-- Embedding of the method `similarity_search_by_vector`: delegate and
strip the scores. -/
def SQLiteVSS.similarity_search_by_vector (st : SQLiteVSS) (embedding : List PyFloat)
    (k : Nat) : Except PyError (List Document) :=
  Except.map (List.map Prod.fst)
    (st.similarity_search_with_score_by_vector embedding k)

/-- The synchronization invariant between the primary table and the paired
vector index: the virtual table holds exactly one entry per primary row,
keyed by that row's rowid `i + 1` and carrying that row's
`text_embedding` blob. -/
def Synced (db : DB) : Prop :=
  db.vssRows = db.rows.enum.map (fun p => (p.1 + 1, p.2.text_embedding))

/-- Concrete deterministic embedding used by the witnesses: one dimension,
value `float(len(text))`. -/
def embFix : EmbedFn := fun t => [⟨(t.length : Int) * 10, 0⟩]

/-- Database after construction over a fresh file with `embFix`. -/
def dbInit : DB := emptyDB.createSchema embFix

/-- Store as constructed over `dbInit`. -/
def stFix : SQLiteVSS := ⟨some dbInit, "test", embFix⟩

/-- Database after `add_texts(["foo", "bazzzz"])` with `metadatas` omitted. -/
def dbFix1 : DB := dbInit.addTexts embFix ["foo", "bazzzz"] none

/-- Store holding `dbFix1`. -/
def stFix1 : SQLiteVSS := ⟨some dbFix1, "test", embFix⟩

/-- Store over a fresh database before any DDL ran. -/
def stRaw : SQLiteVSS := ⟨some emptyDB, "test", embFix⟩

/-! ### Character and digit facts -/

theorem toNat_digitChar (d : Nat) (hd : d < 10) : (digitChar d).toNat = 48 + d := by
  revert d
  decide

theorem isDigitC_digitChar (d : Nat) (hd : d < 10) : isDigitC (digitChar d) = true := by
  simp [isDigitC, toNat_digitChar d hd]
  omega

theorem digitVal_digitChar (d : Nat) (hd : d < 10) : digitVal (digitChar d) = d := by
  simp [digitVal, toNat_digitChar d hd]

theorem isDigitC_toNat {c : Char} (h : isDigitC c = true) :
    48 ≤ c.toNat ∧ c.toNat ≤ 57 := by
  simpa [isDigitC] using h

theorem ne_of_toNat_ne {c d : Char} (h : c.toNat ≠ d.toNat) : c ≠ d := by
  intro hcd
  exact h (congrArg Char.toNat hcd)

/-- Guards of `parseVal` and separators all fail on a digit character. -/
theorem digit_guards {c : Char} (h : isDigitC c = true) :
    c ≠ 'n' ∧ c ≠ 't' ∧ c ≠ 'f' ∧ c ≠ '"' ∧ c ≠ '[' ∧ c ≠ lbrace ∧
      isWsChar c = false ∧ c ≠ ']' ∧ c ≠ '-' ∧ c ≠ '.' := by
  obtain ⟨h1, h2⟩ := isDigitC_toNat h
  refine ⟨ne_of_toNat_ne ?_, ne_of_toNat_ne ?_, ne_of_toNat_ne ?_, ne_of_toNat_ne ?_,
    ne_of_toNat_ne ?_, ne_of_toNat_ne ?_, ?_, ne_of_toNat_ne ?_, ne_of_toNat_ne ?_,
    ne_of_toNat_ne ?_⟩ <;>
    simp [isWsChar, lbrace] <;> omega

theorem hexVal?_toHexDigit (d : Nat) (hd : d < 16) : hexVal? (toHexDigit d) = some d := by
  revert d
  decide

theorem parseHex4_toHex4 (n : Nat) (hn : n < 65536) (rest : List Char) :
    parseHex4 (toHex4 n ++ rest) = some (n, rest) := by
  have h3 : n / 4096 % 16 < 16 := Nat.mod_lt _ (by omega)
  have h2 : n / 256 % 16 < 16 := Nat.mod_lt _ (by omega)
  have h1 : n / 16 % 16 < 16 := Nat.mod_lt _ (by omega)
  have h0 : n % 16 < 16 := Nat.mod_lt _ (by omega)
  simp only [toHex4, List.cons_append, List.nil_append, parseHex4,
    hexVal?_toHexDigit _ h3, hexVal?_toHexDigit _ h2, hexVal?_toHexDigit _ h1,
    hexVal?_toHexDigit _ h0]
  congr 1
  congr 1
  omega

/-! ### Whitespace facts -/

theorem skipWs_cons_of_not_ws {c : Char} (h : isWsChar c = false) (cs : List Char) :
    skipWs (c :: cs) = c :: cs := by
  simp [skipWs, h]

theorem skipWs_space (cs : List Char) : skipWs (' ' :: cs) = skipWs cs := by
  simp [skipWs, isWsChar]

theorem skipWs_skipWs (l : List Char) : skipWs (skipWs l) = skipWs l := by
  induction l with
  | nil => rfl
  | cons c cs ih =>
    by_cases h : isWsChar c = true
    · simp [skipWs, h, ih]
    · simp at h
      simp [skipWs, h]

/-! ### Digit runs -/

theorem numSafe_noDigitHead {rest : List Char} (h : numSafe rest) : noDigitHead rest := by
  cases rest with
  | nil => trivial
  | cons c cs => exact h.1

theorem parseDigitsAcc_stop (rest : List Char) (acc : Nat) (hr : noDigitHead rest) :
    parseDigitsAcc rest acc = (acc, rest) := by
  cases rest with
  | nil => rfl
  | cons c cs =>
    have h : isDigitC c = false := hr
    simp [parseDigitsAcc, h]

theorem parseDigitsCnt_stop (rest : List Char) (acc cnt : Nat) (hr : noDigitHead rest) :
    parseDigitsCnt rest acc cnt = (acc, cnt, rest) := by
  cases rest with
  | nil => rfl
  | cons c cs =>
    have h : isDigitC c = false := hr
    simp [parseDigitsCnt, h]

theorem parseDigitsAcc_digits (ds : List Nat) (rest : List Char) (acc : Nat)
    (hds : ∀ d ∈ ds, d < 10) (hr : noDigitHead rest) :
    parseDigitsAcc (ds.map digitChar ++ rest) acc =
      (ds.foldl (fun a d => a * 10 + d) acc, rest) := by
  induction ds generalizing acc with
  | nil => simpa using parseDigitsAcc_stop rest acc hr
  | cons d ds ih =>
    have hd : d < 10 := hds d (by simp)
    simp only [List.map_cons, List.cons_append, parseDigitsAcc,
      isDigitC_digitChar d hd, if_pos, digitVal_digitChar d hd, List.foldl_cons]
    exact ih _ (fun x hx => hds x (by simp [hx]))

theorem foldl_digits_shift (l : List Nat) (a : Nat) :
    l.foldl (fun x d => x * 10 + d) a =
      a * 10 ^ l.length + l.foldl (fun x d => x * 10 + d) 0 := by
  induction l generalizing a with
  | nil => simp
  | cons d l ih =>
    simp only [List.foldl_cons, List.length_cons, Nat.zero_mul, Nat.zero_add]
    rw [ih (a * 10 + d), ih d]
    ring

theorem foldl_reverse_ofDigits (l : List Nat) :
    l.reverse.foldl (fun a d => a * 10 + d) 0 = Nat.ofDigits 10 l := by
  rw [List.foldl_reverse]
  induction l with
  | nil => simp [Nat.ofDigits]
  | cons d l ih =>
    rw [List.foldr_cons, ih, Nat.ofDigits_cons]
    ring

theorem natDigitsLE_ofDigits (fuel n : Nat) (h : n ≤ fuel) :
    Nat.ofDigits 10 (natDigitsLE fuel n) = n := by
  induction fuel generalizing n with
  | zero =>
    have : n = 0 := by omega
    simp [natDigitsLE, this]
  | succ f ih =>
    by_cases hn : n = 0
    · simp [natDigitsLE, hn]
    · have hdiv : n / 10 ≤ f := by omega
      simp only [natDigitsLE]
      rw [if_neg hn, Nat.ofDigits_cons, ih _ hdiv]
      omega

theorem natDigitsLE_lt (fuel n : Nat) : ∀ d ∈ natDigitsLE fuel n, d < 10 := by
  induction fuel generalizing n with
  | zero => simp [natDigitsLE]
  | succ f ih =>
    by_cases hn : n = 0
    · simp [natDigitsLE, hn]
    · simp only [natDigitsLE, hn, if_neg]
      intro d hd
      rcases List.mem_cons.mp hd with h | h
      · omega
      · exact ih _ d h

theorem natDigitsLE_ne_nil (n : Nat) (hn : n ≠ 0) : natDigitsLE n n ≠ [] := by
  cases n with
  | zero => exact absurd rfl hn
  | succ f => simp [natDigitsLE]

theorem parseDigitsAcc_printNat (n : Nat) (rest : List Char) (hr : noDigitHead rest) :
    parseDigitsAcc (printNat n ++ rest) 0 = (n, rest) := by
  by_cases hn : n = 0
  · subst hn
    have h0 : printNat 0 = [digitChar 0] := rfl
    rw [h0]
    have := parseDigitsAcc_digits [0] rest 0 (by simp) hr
    simpa using this
  · rw [printNat, if_neg hn, ← List.map_reverse]
    rw [parseDigitsAcc_digits _ rest 0
      (fun d hd => natDigitsLE_lt n n d (List.mem_reverse.mp hd)) hr]
    rw [foldl_reverse_ofDigits, natDigitsLE_ofDigits n n le_rfl]

theorem parseDigitsCnt_pad (k : Nat) : ∀ (n : Nat) (rest : List Char) (acc cnt : Nat),
    n < 10 ^ k → noDigitHead rest →
    parseDigitsCnt (printNatPad k n ++ rest) acc cnt = (acc * 10 ^ k + n, cnt + k, rest) := by
  induction k with
  | zero =>
    intro n rest acc cnt hn hr
    have : n = 0 := by omega
    subst this
    simpa using parseDigitsCnt_stop rest acc cnt hr
  | succ k ih =>
    intro n rest acc cnt hn hr
    have hd : n / 10 ^ k < 10 := by
      have h1 : 10 ^ (k + 1) = 10 ^ k * 10 := pow_succ 10 k
      have h2 : 0 < 10 ^ k := Nat.pos_pow_of_pos k (by omega)
      exact Nat.div_lt_of_lt_mul (by omega)
    have hm : n % 10 ^ k < 10 ^ k := Nat.mod_lt _ (Nat.pos_pow_of_pos k (by omega))
    simp only [printNatPad, List.cons_append, parseDigitsCnt,
      isDigitC_digitChar _ hd, if_pos, digitVal_digitChar _ hd, List.append_eq]
    rw [ih _ rest _ _ hm hr]
    have hdm : n / 10 ^ k * 10 ^ k + n % 10 ^ k = n := Nat.div_add_mod' n (10 ^ k)
    have hval : (acc * 10 + n / 10 ^ k) * 10 ^ k + n % 10 ^ k = acc * 10 ^ (k + 1) + n := by
      calc (acc * 10 + n / 10 ^ k) * 10 ^ k + n % 10 ^ k
          = acc * (10 ^ k * 10) + (n / 10 ^ k * 10 ^ k + n % 10 ^ k) := by ring
        _ = acc * 10 ^ (k + 1) + n := by rw [hdm, pow_succ]
    have hc : cnt + 1 + k = cnt + (k + 1) := by omega
    rw [hval, hc]

/-! ### Number literals -/

theorem printNat_cons (n : Nat) : ∃ c t, printNat n = c :: t ∧ isDigitC c = true := by
  by_cases hn : n = 0
  · exact ⟨digitChar 0, [], by simp [hn]; rfl, isDigitC_digitChar 0 (by omega)⟩
  · rw [printNat, if_neg hn, ← List.map_reverse]
    rcases hrev : (natDigitsLE n n).reverse with _ | ⟨d, t⟩
    · exact absurd (List.reverse_eq_nil_iff.mp hrev) (natDigitsLE_ne_nil n hn)
    · refine ⟨digitChar d, t.map digitChar, by simp, ?_⟩
      exact isDigitC_digitChar d
        (natDigitsLE_lt n n d (List.mem_reverse.mp (by simp [hrev])))

theorem parseUNum_printNat (n : Nat) (rest : List Char) (hr : numSafe rest) :
    parseUNum (printNat n ++ rest) = some (.int (n : Int), rest) := by
  obtain ⟨c, t, hct, hd⟩ := printNat_cons n
  have hsplit : printNat n ++ rest = c :: (t ++ rest) := by rw [hct]; rfl
  rw [hsplit]
  simp only [parseUNum, hd, if_pos]
  have : parseDigitsAcc (c :: (t ++ rest)) 0 = (n, rest) := by
    rw [← hsplit]
    exact parseDigitsAcc_printNat n rest (numSafe_noDigitHead hr)
  rw [this]
  cases rest with
  | nil => rfl
  | cons r rs =>
    obtain ⟨hr1, hr2⟩ := hr
    simp [hr2]

theorem parseUNum_printFltAbs (a e : Nat) (rest : List Char) (hr : numSafe rest) :
    parseUNum (printFltAbs a e ++ rest) = some (.flt (a : Int) e, rest) := by
  have hp : (0 : Nat) < 10 ^ (e + 1) := Nat.pos_pow_of_pos _ (by omega)
  have hm : a % 10 ^ (e + 1) < 10 ^ (e + 1) := Nat.mod_lt _ hp
  obtain ⟨c, t, hct, hd⟩ := printNat_cons (a / 10 ^ (e + 1))
  have hsplit : printFltAbs a e ++ rest =
      c :: (t ++ '.' :: (printNatPad (e + 1) (a % 10 ^ (e + 1)) ++ rest)) := by
    rw [printFltAbs, hct]
    simp
  rw [hsplit]
  simp only [parseUNum, hd, if_pos]
  have hacc : parseDigitsAcc
      (c :: (t ++ '.' :: (printNatPad (e + 1) (a % 10 ^ (e + 1)) ++ rest))) 0 =
      (a / 10 ^ (e + 1), '.' :: (printNatPad (e + 1) (a % 10 ^ (e + 1)) ++ rest)) := by
    have h2 : c :: (t ++ '.' :: (printNatPad (e + 1) (a % 10 ^ (e + 1)) ++ rest)) =
        printNat (a / 10 ^ (e + 1)) ++
          ('.' :: (printNatPad (e + 1) (a % 10 ^ (e + 1)) ++ rest)) := by
      rw [hct]; rfl
    rw [h2]
    exact parseDigitsAcc_printNat _ _ (by exact rfl)
  rw [hacc]
  have hfrac : printNatPad (e + 1) (a % 10 ^ (e + 1)) =
      digitChar (a % 10 ^ (e + 1) / 10 ^ e) :: printNatPad e (a % 10 ^ (e + 1) % 10 ^ e) := rfl
  have hfd : a % 10 ^ (e + 1) / 10 ^ e < 10 := by
    have h1 : 10 ^ (e + 1) = 10 ^ e * 10 := pow_succ 10 e
    have h2 : 0 < 10 ^ e := Nat.pos_pow_of_pos e (by omega)
    exact Nat.div_lt_of_lt_mul (by omega)
  have hcnt := parseDigitsCnt_pad (e + 1) (a % 10 ^ (e + 1)) rest 0 0 hm
    (numSafe_noDigitHead hr)
  simp only [if_pos rfl, hfrac, List.cons_append]
  simp only [isDigitC_digitChar _ hfd, if_pos]
  rw [← List.cons_append, ← hfrac, hcnt]
  simp only [Nat.zero_mul, Nat.zero_add]
  have h1 : a / 10 ^ (e + 1) * 10 ^ (e + 1) + a % 10 ^ (e + 1) = a :=
    Nat.div_add_mod' a (10 ^ (e + 1))
  rw [h1]
  simp

theorem not_lt_of_isDigitC {c : Char} (h : isDigitC c = true) : ¬ c = '-' :=
  (digit_guards h).2.2.2.2.2.2.2.2.1

theorem parseNum_printInt (m : Int) (rest : List Char) (hr : numSafe rest) :
    parseNum (printInt m ++ rest) = some (.int m, rest) := by
  obtain ⟨c, t, hct, hd⟩ := printNat_cons m.natAbs
  by_cases hm : m < 0
  · rw [printInt, if_pos hm]
    simp only [List.cons_append, parseNum, eq_self_iff_true, if_true]
    rw [parseUNum_printNat m.natAbs rest hr]
    have habs : ((m.natAbs : Int)) = -m := by omega
    simp [negJson, habs]
  · rw [printInt, if_neg hm]
    have hsplit : printNat m.natAbs ++ rest = c :: (t ++ rest) := by rw [hct]; rfl
    rw [hsplit, parseNum, if_neg (not_lt_of_isDigitC hd), ← hsplit]
    rw [parseUNum_printNat m.natAbs rest hr]
    have habs : ((m.natAbs : Int)) = m := by omega
    rw [habs]

theorem parseNum_printFlt (m : Int) (e : Nat) (rest : List Char) (hr : numSafe rest) :
    parseNum (printFlt m e ++ rest) = some (.flt m e, rest) := by
  obtain ⟨c, t, hct, hd⟩ := printNat_cons (m.natAbs / 10 ^ (e + 1))
  by_cases hm : m < 0
  · rw [printFlt, if_pos hm]
    simp only [List.cons_append, parseNum, eq_self_iff_true, if_true]
    rw [parseUNum_printFltAbs m.natAbs e rest hr]
    have habs : ((m.natAbs : Int)) = -m := by omega
    simp [negJson, habs]
  · rw [printFlt, if_neg hm]
    have hsplit : printFltAbs m.natAbs e ++ rest =
        c :: (t ++ '.' :: (printNatPad (e + 1) (m.natAbs % 10 ^ (e + 1)) ++ rest)) := by
      rw [printFltAbs, hct]
      simp
    rw [hsplit, parseNum, if_neg (not_lt_of_isDigitC hd), ← hsplit]
    rw [parseUNum_printFltAbs m.natAbs e rest hr]
    have habs : ((m.natAbs : Int)) = m := by omega
    rw [habs]

/-! ### String escapes -/

theorem char_valid_toNat (c : Char) :
    c.toNat < 55296 ∨ (57343 < c.toNat ∧ c.toNat < 1114112) := c.valid

theorem escChar_length_pos (c : Char) : 1 ≤ (escChar c).length := by
  unfold escChar
  repeat' split
  all_goals simp [toHex4]

theorem escString_length_ge (l : List Char) : l.length ≤ (escString l).length := by
  induction l with
  | nil => simp [escString]
  | cons c l ih =>
    have := escChar_length_pos c
    simp only [escString, List.length_append, List.length_cons]
    omega

theorem parseEsc_quote (T : List Char) : parseEsc ('"' :: T) = some ('"', T) := by
  simp [parseEsc, unescChar?]

theorem parseEsc_backslash (T : List Char) : parseEsc ('\\' :: T) = some ('\\', T) := by
  simp [parseEsc, unescChar?]

theorem parseEsc_named_b (T : List Char) : parseEsc ('b' :: T) = some (Char.ofNat 8, T) := by
  simp [parseEsc, unescChar?]

theorem parseEsc_named_t (T : List Char) : parseEsc ('t' :: T) = some (Char.ofNat 9, T) := by
  simp [parseEsc, unescChar?]

theorem parseEsc_named_n (T : List Char) : parseEsc ('n' :: T) = some (Char.ofNat 10, T) := by
  simp [parseEsc, unescChar?]

theorem parseEsc_named_f (T : List Char) : parseEsc ('f' :: T) = some (Char.ofNat 12, T) := by
  simp [parseEsc, unescChar?]

theorem parseEsc_named_r (T : List Char) : parseEsc ('r' :: T) = some (Char.ofNat 13, T) := by
  simp [parseEsc, unescChar?]

theorem parseEsc_hex (n : Nat) (T : List Char) (hn : n < 65536)
    (hns1 : ¬(55296 ≤ n ∧ n ≤ 56319)) (hns2 : ¬(56320 ≤ n ∧ n ≤ 57343)) :
    parseEsc ('u' :: (toHex4 n ++ T)) = some (Char.ofNat n, T) := by
  simp [parseEsc, parseHex4_toHex4 n hn T, hns1, hns2]

theorem parseEsc_pair (n m : Nat) (T : List Char)
    (h1 : 55296 ≤ n ∧ n ≤ 56319) (h2 : 56320 ≤ m ∧ m ≤ 57343) :
    parseEsc ('u' :: (toHex4 n ++ ('\\' :: 'u' :: (toHex4 m ++ T)))) =
      some (Char.ofNat (65536 + (n - 55296) * 1024 + (m - 56320)), T) := by
  have hhi := parseHex4_toHex4 n (by omega) ('\\' :: 'u' :: (toHex4 m ++ T))
  have hlo := parseHex4_toHex4 m (by omega) T
  simp [parseEsc, hhi, hlo, h1, h2]

/-- Every character either escapes to itself (printable ASCII that needs no
escape) or to a backslash escape that `parseEsc` decodes back to it. -/
theorem escChar_shape (c : Char) :
    (escChar c = [c] ∧ ¬c = '"' ∧ ¬c = '\\' ∧ ¬c.toNat < 32) ∨
      ∃ pre, escChar c = '\\' :: pre ∧ ∀ T, parseEsc (pre ++ T) = some (c, T) := by
  by_cases h1 : c = '"'
  · subst h1
    exact Or.inr ⟨['"'], rfl, fun T => parseEsc_quote T⟩
  by_cases h2 : c = '\\'
  · subst h2
    exact Or.inr ⟨['\\'], rfl, fun T => parseEsc_backslash T⟩
  by_cases h8 : c.toNat = 8
  · have hesc : escChar c = ['\\', 'b'] := by simp [escChar, h1, h2, h8]
    have hc : Char.ofNat 8 = c := by rw [← h8, Char.ofNat_toNat]
    exact Or.inr ⟨['b'], hesc, fun T => by rw [List.singleton_append, parseEsc_named_b, hc]⟩
  by_cases h9 : c.toNat = 9
  · have hesc : escChar c = ['\\', 't'] := by simp [escChar, h1, h2, h8, h9]
    have hc : Char.ofNat 9 = c := by rw [← h9, Char.ofNat_toNat]
    exact Or.inr ⟨['t'], hesc, fun T => by rw [List.singleton_append, parseEsc_named_t, hc]⟩
  by_cases h10 : c.toNat = 10
  · have hesc : escChar c = ['\\', 'n'] := by simp [escChar, h1, h2, h8, h9, h10]
    have hc : Char.ofNat 10 = c := by rw [← h10, Char.ofNat_toNat]
    exact Or.inr ⟨['n'], hesc, fun T => by rw [List.singleton_append, parseEsc_named_n, hc]⟩
  by_cases h12 : c.toNat = 12
  · have hesc : escChar c = ['\\', 'f'] := by simp [escChar, h1, h2, h8, h9, h10, h12]
    have hc : Char.ofNat 12 = c := by rw [← h12, Char.ofNat_toNat]
    exact Or.inr ⟨['f'], hesc, fun T => by rw [List.singleton_append, parseEsc_named_f, hc]⟩
  by_cases h13 : c.toNat = 13
  · have hesc : escChar c = ['\\', 'r'] := by simp [escChar, h1, h2, h8, h9, h10, h12, h13]
    have hc : Char.ofNat 13 = c := by rw [← h13, Char.ofNat_toNat]
    exact Or.inr ⟨['r'], hesc, fun T => by rw [List.singleton_append, parseEsc_named_r, hc]⟩
  by_cases hlt : c.toNat < 32
  · have hesc : escChar c = '\\' :: 'u' :: toHex4 c.toNat := by
      simp [escChar, h1, h2, h8, h9, h10, h12, h13, hlt]
    refine Or.inr ⟨'u' :: toHex4 c.toNat, hesc, fun T => ?_⟩
    rw [List.cons_append, parseEsc_hex c.toNat T (by omega) (by omega) (by omega),
      Char.ofNat_toNat]
  by_cases hle : c.toNat ≤ 126
  · have hesc : escChar c = [c] := by
      simp [escChar, h1, h2, h8, h9, h10, h12, h13, hlt, hle]
    exact Or.inl ⟨hesc, h1, h2, hlt⟩
  by_cases hbmp : c.toNat < 65536
  · have hesc : escChar c = '\\' :: 'u' :: toHex4 c.toNat := by
      simp [escChar, h1, h2, h8, h9, h10, h12, h13, hlt, hle, hbmp]
    have hns1 : ¬(55296 ≤ c.toNat ∧ c.toNat ≤ 56319) := by
      rcases char_valid_toNat c with h | h <;> omega
    have hns2 : ¬(56320 ≤ c.toNat ∧ c.toNat ≤ 57343) := by
      rcases char_valid_toNat c with h | h <;> omega
    refine Or.inr ⟨'u' :: toHex4 c.toNat, hesc, fun T => ?_⟩
    rw [List.cons_append, parseEsc_hex c.toNat T hbmp hns1 hns2, Char.ofNat_toNat]
  · have hup : c.toNat < 1114112 := by
      rcases char_valid_toNat c with h | h <;> omega
    have hesc : escChar c = '\\' ::
        ('u' :: (toHex4 (55296 + (c.toNat - 65536) / 1024) ++
          ('\\' :: 'u' :: toHex4 (56320 + (c.toNat - 65536) % 1024)))) := by
      simp [escChar, h1, h2, h8, h9, h10, h12, h13, hlt, hle, hbmp]
    refine Or.inr ⟨'u' :: (toHex4 (55296 + (c.toNat - 65536) / 1024) ++
      ('\\' :: 'u' :: toHex4 (56320 + (c.toNat - 65536) % 1024))), hesc, fun T => ?_⟩
    have hshape : ('u' :: (toHex4 (55296 + (c.toNat - 65536) / 1024) ++
        ('\\' :: 'u' :: toHex4 (56320 + (c.toNat - 65536) % 1024)))) ++ T =
        'u' :: (toHex4 (55296 + (c.toNat - 65536) / 1024) ++
          ('\\' :: 'u' :: (toHex4 (56320 + (c.toNat - 65536) % 1024) ++ T))) := by
      simp [List.append_assoc]
    rw [hshape, parseEsc_pair _ _ T (by omega) (by omega)]
    have hcode : 65536 + (55296 + (c.toNat - 65536) / 1024 - 55296) * 1024 +
        (56320 + (c.toNat - 65536) % 1024 - 56320) = c.toNat := by omega
    rw [hcode, Char.ofNat_toNat]

theorem parseStringBody_escChar (c : Char) (f : Nat) (T s r : List Char)
    (hT : parseStringBody f T = some (s, r)) :
    parseStringBody (f + 1) (escChar c ++ T) = some (c :: s, r) := by
  rcases escChar_shape c with ⟨hesc, hq, hb, hctl⟩ | ⟨pre, hpre, hparse⟩
  · rw [hesc, List.singleton_append]
    simp [parseStringBody, hq, hb, hctl, hT]
  · rw [hpre, List.cons_append]
    simp [parseStringBody, hparse T, hT]

theorem parseStringBody_escString (l : List Char) : ∀ (fuel : Nat) (rest : List Char),
    l.length < fuel →
    parseStringBody fuel (escString l ++ '"' :: rest) = some (l, rest) := by
  induction l with
  | nil =>
    intro fuel rest h
    cases fuel with
    | zero => omega
    | succ f => simp [escString, parseStringBody]
  | cons c l ih =>
    intro fuel rest h
    cases fuel with
    | zero => omega
    | succ f =>
      have hrec := ih f rest (by simp at h; omega)
      have hstep := parseStringBody_escChar c f (escString l ++ '"' :: rest) l rest hrec
      simpa [escString, List.append_assoc] using hstep

/-! ### Parser step lemmas -/

theorem numHead_guards {c : Char} (h : c = '-' ∨ isDigitC c = true) :
    ¬c = 'n' ∧ ¬c = 't' ∧ ¬c = 'f' ∧ ¬c = '"' ∧ ¬c = '[' ∧ ¬c = lbrace := by
  rcases h with h | h
  · subst h
    refine ⟨?_, ?_, ?_, ?_, ?_, ?_⟩ <;> decide
  · obtain ⟨g1, g2, g3, g4, g5, g6, _⟩ := digit_guards h
    exact ⟨g1, g2, g3, g4, g5, g6⟩

theorem pv_null (g : Nat) (input rest : List Char)
    (hi : skipWs input = 'n' :: 'u' :: 'l' :: 'l' :: rest) :
    parseVal (g + 1) input = some (.null, rest) := by
  simp only [parseVal]
  rw [hi]
  simp

theorem pv_true (g : Nat) (input rest : List Char)
    (hi : skipWs input = 't' :: 'r' :: 'u' :: 'e' :: rest) :
    parseVal (g + 1) input = some (.bool true, rest) := by
  simp only [parseVal]
  rw [hi]
  simp

theorem pv_false (g : Nat) (input rest : List Char)
    (hi : skipWs input = 'f' :: 'a' :: 'l' :: 's' :: 'e' :: rest) :
    parseVal (g + 1) input = some (.bool false, rest) := by
  simp only [parseVal]
  rw [hi]
  simp

theorem pv_num (g : Nat) (input : List Char) (c : Char) (t : List Char)
    (hg : c = '-' ∨ isDigitC c = true) (hi : skipWs input = c :: t) :
    parseVal (g + 1) input = parseNum (c :: t) := by
  obtain ⟨g1, g2, g3, g4, g5, g6⟩ := numHead_guards hg
  simp only [parseVal]
  rw [hi]
  simp [g1, g2, g3, g4, g5, g6]

theorem pv_str (g : Nat) (input : List Char) (cs s0 rest : List Char)
    (hi : skipWs input = '"' :: cs)
    (hps : parseStringBody (cs.length + 1) cs = some (s0, rest)) :
    parseVal (g + 1) input = some (.str (String.mk s0), rest) := by
  simp only [parseVal]
  rw [hi]
  simp [hps]

theorem pv_arr_nil (g : Nat) (input rest : List Char)
    (hi : skipWs input = '[' :: ']' :: rest) :
    parseVal (g + 1) input = some (.arr [], rest) := by
  simp only [parseVal]
  rw [hi]
  rfl

theorem pv_arr_cons (g : Nat) (input : List Char) (d : Char) (ds rest : List Char)
    (xs : List Json) (hi : skipWs input = '[' :: d :: ds) (hw : isWsChar d = false)
    (hne : ¬d = ']') (he : parseElems g (d :: ds) = some (xs, rest)) :
    parseVal (g + 1) input = some (.arr xs, rest) := by
  simp only [parseVal]
  rw [hi]
  simp [skipWs, hw, hne, he]

theorem pv_obj_nil (g : Nat) (input rest : List Char)
    (hi : skipWs input = lbrace :: rbrace :: rest) :
    parseVal (g + 1) input = some (.obj [], rest) := by
  simp only [parseVal]
  rw [hi]
  simp [skipWs]
  rfl

theorem lbrace_guards :
    ¬lbrace = 'n' ∧ ¬lbrace = 't' ∧ ¬lbrace = 'f' ∧ ¬lbrace = '"' ∧ ¬lbrace = '[' := by
  decide

theorem pv_obj_cons (g : Nat) (input : List Char) (d : Char) (ds rest : List Char)
    (kvs : List (String × Json)) (hi : skipWs input = lbrace :: d :: ds)
    (hw : isWsChar d = false) (hne : ¬d = rbrace)
    (hm : parseMembers g (d :: ds) = some (kvs, rest)) :
    parseVal (g + 1) input = some (.obj kvs, rest) := by
  obtain ⟨g1, g2, g3, g4, g5⟩ := lbrace_guards
  simp only [parseVal]
  rw [hi]
  simp [skipWs, g1, g2, g3, g4, g5, hw, hne, hm]

theorem pe_last (g : Nat) (input : List Char) (j : Json) (rest1 r : List Char)
    (hv : parseVal g input = some (j, rest1)) (hs : skipWs rest1 = ']' :: r) :
    parseElems (g + 1) input = some ([j], r) := by
  simp only [parseElems]
  rw [hv]
  simp only [hs]
  simp

theorem pe_step (g : Nat) (input : List Char) (j : Json) (rest1 cs2 r : List Char)
    (xs : List Json) (hv : parseVal g input = some (j, rest1))
    (hs : skipWs rest1 = ',' :: cs2) (he : parseElems g cs2 = some (xs, r)) :
    parseElems (g + 1) input = some (j :: xs, r) := by
  simp only [parseElems]
  rw [hv]
  simp only [hs]
  simp [he]

theorem rbrace_ne_comma : ¬rbrace = ',' := by decide

theorem pm_last (g : Nat) (input cs k0 rest1 : List Char) (v : Json)
    (rest2 r1 r : List Char) (hi : skipWs input = '"' :: cs)
    (hk : parseStringBody (cs.length + 1) cs = some (k0, rest1))
    (hc : skipWs rest1 = ':' :: rest2) (hv : parseVal g rest2 = some (v, r1))
    (hr2 : skipWs r1 = rbrace :: r) :
    parseMembers (g + 1) input = some ([(String.mk k0, v)], r) := by
  simp only [parseMembers]
  rw [hi]
  simp only [hk, hc, hv, hr2]
  simp [rbrace_ne_comma]

theorem pm_step (g : Nat) (input cs k0 rest1 : List Char) (v : Json)
    (rest2 r1 cs2 r : List Char) (kvs : List (String × Json))
    (hi : skipWs input = '"' :: cs)
    (hk : parseStringBody (cs.length + 1) cs = some (k0, rest1))
    (hc : skipWs rest1 = ':' :: rest2) (hv : parseVal g rest2 = some (v, r1))
    (hr2 : skipWs r1 = ',' :: cs2) (hm : parseMembers g cs2 = some (kvs, r)) :
    parseMembers (g + 1) input = some ((String.mk k0, v) :: kvs, r) := by
  simp only [parseMembers]
  rw [hi]
  simp only [hk, hc, hv, hr2]
  simp [hm]

/-! ### Printed-form head characters and fuel positivity -/

theorem mk_data (s : String) : String.mk s.data = s := by
  cases s
  rfl

theorem printInt_cons (m : Int) :
    ∃ c t, printInt m = c :: t ∧ (c = '-' ∨ isDigitC c = true) := by
  obtain ⟨c, t, hct, hd⟩ := printNat_cons m.natAbs
  by_cases hm : m < 0
  · exact ⟨'-', printNat m.natAbs, by rw [printInt, if_pos hm], Or.inl rfl⟩
  · exact ⟨c, t, by rw [printInt, if_neg hm, hct], Or.inr hd⟩

theorem printFlt_cons (m : Int) (e : Nat) :
    ∃ c t, printFlt m e = c :: t ∧ (c = '-' ∨ isDigitC c = true) := by
  obtain ⟨c, t, hct, hd⟩ := printNat_cons (m.natAbs / 10 ^ (e + 1))
  by_cases hm : m < 0
  · exact ⟨'-', printFltAbs m.natAbs e, by rw [printFlt, if_pos hm], Or.inl rfl⟩
  · refine ⟨c, t ++ '.' :: printNatPad (e + 1) (m.natAbs % 10 ^ (e + 1)), ?_, Or.inr hd⟩
    rw [printFlt, if_neg hm, printFltAbs, hct]
    rfl

theorem num_head_not_ws {c : Char} (h : c = '-' ∨ isDigitC c = true) :
    isWsChar c = false ∧ ¬c = ']' := by
  rcases h with h | h
  · subst h
    exact ⟨by decide, by decide⟩
  · obtain ⟨_, _, _, _, _, _, hws, hrb, _⟩ := digit_guards h
    exact ⟨hws, hrb⟩

theorem printJson_head (j : Json) :
    ∃ c t, printJson j = c :: t ∧ isWsChar c = false ∧ ¬c = ']' := by
  cases j with
  | null => exact ⟨'n', _, rfl, by decide, by decide⟩
  | bool b =>
    cases b
    · exact ⟨'f', _, rfl, by decide, by decide⟩
    · exact ⟨'t', _, rfl, by decide, by decide⟩
  | int m =>
    obtain ⟨c, t, hct, hd⟩ := printInt_cons m
    obtain ⟨hws, hrb⟩ := num_head_not_ws hd
    exact ⟨c, t, by rw [printJson, hct], hws, hrb⟩
  | flt m e =>
    obtain ⟨c, t, hct, hd⟩ := printFlt_cons m e
    obtain ⟨hws, hrb⟩ := num_head_not_ws hd
    exact ⟨c, t, by rw [printJson, hct], hws, hrb⟩
  | str s => exact ⟨'"', _, by rw [printJson]; rfl, by decide, by decide⟩
  | arr xs => exact ⟨'[', _, by rw [printJson]; rfl, by decide, by decide⟩
  | obj kvs => exact ⟨lbrace, _, by rw [printJson]; rfl, by decide, by decide⟩

theorem printElems_head (y : Json) (ys : List Json) :
    ∃ c t, printElems (y :: ys) = c :: t ∧ isWsChar c = false ∧ ¬c = ']' := by
  obtain ⟨c, t, hct, hws, hrb⟩ := printJson_head y
  cases ys with
  | nil => exact ⟨c, t, by rw [printElems, hct], hws, hrb⟩
  | cons y2 ys2 =>
    exact ⟨c, t ++ ',' :: ' ' :: printElems (y2 :: ys2),
      by rw [printElems, hct]; rfl, hws, hrb⟩

theorem printMembers_cons_head (k : String) (v : Json) (kvs : List (String × Json)) :
    ∃ t, printMembers ((k, v) :: kvs) = '"' :: t := by
  cases kvs with
  | nil => exact ⟨_, by rw [printMembers]; rfl⟩
  | cons kv2 kvs2 => exact ⟨_, by rw [printMembers]; rfl⟩

theorem jfuel_pos (j : Json) : 1 ≤ jfuel j := by
  cases j <;> simp [jfuel]

/-! ### The parser inverts the printer -/

theorem json_sizeOf_pos (j : Json) : 1 ≤ sizeOf j := by
  cases j <;> simp_arith

theorem list_sizeOf_pos {α : Type} [SizeOf α] (l : List α) : 1 ≤ sizeOf l := by
  cases l <;> simp_arith

theorem parse_print_all (N : Nat) :
    (∀ (j : Json), sizeOf j ≤ N → ∀ (fuel : Nat) (rest input : List Char),
      jfuel j ≤ fuel → numSafe rest → skipWs input = printJson j ++ rest →
      parseVal fuel input = some (j, rest)) ∧
    (∀ (x : Json) (xs : List Json), sizeOf x + sizeOf xs ≤ N →
      ∀ (fuel : Nat) (rest input : List Char), efuel (x :: xs) ≤ fuel →
      skipWs input = printElems (x :: xs) ++ ']' :: rest →
      parseElems fuel input = some (x :: xs, rest)) ∧
    (∀ (k : String) (v : Json) (kvs : List (String × Json)), sizeOf v + sizeOf kvs ≤ N →
      ∀ (fuel : Nat) (rest input : List Char), mfuel ((k, v) :: kvs) ≤ fuel →
      skipWs input = printMembers ((k, v) :: kvs) ++ rbrace :: rest →
      parseMembers fuel input = some ((k, v) :: kvs, rest)) := by
  induction N using Nat.strong_induction_on with
  | _ N IH =>
  refine ⟨?_, ?_, ?_⟩
  · intro j hN fuel rest input hf hr hi
    cases fuel with
    | zero => exact absurd hf (by have := jfuel_pos j; omega)
    | succ g =>
      cases j with
      | null => exact pv_null g input rest (by rw [hi]; rfl)
      | bool b =>
        cases b
        · exact pv_false g input rest (by rw [hi]; rfl)
        · exact pv_true g input rest (by rw [hi]; rfl)
      | int m =>
        obtain ⟨c, t, hct, hg⟩ := printInt_cons m
        have hi2 : skipWs input = c :: (t ++ rest) := by
          rw [hi]
          simp [printJson, hct]
        rw [pv_num g input c (t ++ rest) hg hi2]
        have hre : c :: (t ++ rest) = printInt m ++ rest := by rw [hct]; rfl
        rw [hre, parseNum_printInt m rest hr]
      | flt m e =>
        obtain ⟨c, t, hct, hg⟩ := printFlt_cons m e
        have hi2 : skipWs input = c :: (t ++ rest) := by
          rw [hi]
          simp [printJson, hct]
        rw [pv_num g input c (t ++ rest) hg hi2]
        have hre : c :: (t ++ rest) = printFlt m e ++ rest := by rw [hct]; rfl
        rw [hre, parseNum_printFlt m e rest hr]
      | str s =>
        have hi2 : skipWs input = '"' :: (escString s.data ++ '"' :: rest) := by
          rw [hi]
          simp [printJson]
        have hlen : s.data.length < (escString s.data ++ '"' :: rest).length + 1 := by
          have := escString_length_ge s.data
          simp only [List.length_append, List.length_cons]
          omega
        have hps := parseStringBody_escString s.data
          ((escString s.data ++ '"' :: rest).length + 1) rest hlen
        rw [pv_str g input _ s.data rest hi2 hps, mk_data]
      | arr xs =>
        cases xs with
        | nil => exact pv_arr_nil g input rest (by rw [hi]; rfl)
        | cons x xs =>
          obtain ⟨d, ds, hd, hw, hne⟩ := printElems_head x xs
          have hi2 : skipWs input = '[' :: d :: (ds ++ ']' :: rest) := by
            rw [hi]
            simp [printJson, hd]
          simp_arith at hN
          have hee : parseElems g (d :: (ds ++ ']' :: rest)) = some (x :: xs, rest) := by
            have PE := (IH (N - 1) (by omega)).2.1
            apply PE x xs (by omega) g rest
            · simp only [jfuel] at hf
              omega
            · rw [skipWs_cons_of_not_ws hw, ← List.cons_append, ← hd]
          exact pv_arr_cons g input d _ rest (x :: xs) hi2 hw hne hee
      | obj kvs =>
        rcases kvs with _ | ⟨⟨k, v⟩, kvs⟩
        · exact pv_obj_nil g input rest (by rw [hi]; rfl)
        · obtain ⟨t0, ht0⟩ := printMembers_cons_head k v kvs
          have hi2 : skipWs input = lbrace :: '"' :: (t0 ++ rbrace :: rest) := by
            rw [hi]
            simp [printJson, ht0]
          simp_arith at hN
          have hmm : parseMembers g ('"' :: (t0 ++ rbrace :: rest)) =
              some ((k, v) :: kvs, rest) := by
            have PM := (IH (N - 1) (by omega)).2.2
            apply PM k v kvs (by omega) g rest
            · simp only [jfuel] at hf
              omega
            · rw [skipWs_cons_of_not_ws (by decide), ← List.cons_append, ← ht0]
          exact pv_obj_cons g input '"' _ rest _ hi2 (by decide) (by decide) hmm
  · intro x xs hN fuel rest input hf hi
    cases fuel with
    | zero => exact absurd hf (by simp only [efuel]; omega)
    | succ g =>
      have hxpos := json_sizeOf_pos x
      have hxspos := list_sizeOf_pos xs
      cases xs with
      | nil =>
        have hv : parseVal g input = some (x, ']' :: rest) := by
          have PV := (IH (N - 1) (by omega)).1
          apply PV x (by omega) g (']' :: rest) input
          · simp only [efuel] at hf
            omega
          · exact ⟨by decide, by decide⟩
          · rw [hi]
            rfl
        exact pe_last g input x (']' :: rest) rest hv (skipWs_cons_of_not_ws (by decide) rest)
      | cons y ys =>
        simp_arith at hxspos ⊢
        have hsy := json_sizeOf_pos y
        have hsys := list_sizeOf_pos ys
        have hszxs : sizeOf (y :: ys) = 1 + sizeOf y + sizeOf ys := by simp_arith
        rw [hszxs] at hN
        have hv : parseVal g input =
            some (x, ',' :: ' ' :: (printElems (y :: ys) ++ ']' :: rest)) := by
          have PV := (IH (N - 1) (by omega)).1
          apply PV x (by omega) g _ input
          · simp only [efuel] at hf
            omega
          · exact ⟨by decide, by decide⟩
          · rw [hi]
            simp [printElems]
        have he2 : parseElems g (' ' :: (printElems (y :: ys) ++ ']' :: rest)) =
            some (y :: ys, rest) := by
          have PE := (IH (N - 1) (by omega)).2.1
          apply PE y ys (by omega) g rest
          · simp only [efuel] at hf ⊢
            omega
          · obtain ⟨c0, t0, hc0, hw0, _⟩ := printElems_head y ys
            rw [skipWs_space, hc0, List.cons_append, skipWs_cons_of_not_ws hw0,
              ← List.cons_append, ← hc0]
        exact pe_step g input x _ _ rest (y :: ys) hv
          (skipWs_cons_of_not_ws (by decide) _) he2
  · intro k v kvs hN fuel rest input hf hi
    cases fuel with
    | zero => exact absurd hf (by simp only [mfuel]; omega)
    | succ g =>
      have hvpos := json_sizeOf_pos v
      have hkvspos := list_sizeOf_pos kvs
      rcases kvs with _ | ⟨⟨k2, v2⟩, kvs2⟩
      · have hi2 : skipWs input =
            '"' :: (escString k.data ++ '"' :: (':' :: ' ' :: (printJson v ++ rbrace :: rest))) := by
          rw [hi]
          simp [printMembers]
        have hlen : k.data.length <
            (escString k.data ++ '"' :: (':' :: ' ' :: (printJson v ++ rbrace :: rest))).length + 1 := by
          have := escString_length_ge k.data
          simp only [List.length_append, List.length_cons]
          omega
        have hk := parseStringBody_escString k.data _
          (':' :: ' ' :: (printJson v ++ rbrace :: rest)) hlen
        have hvv : parseVal g (' ' :: (printJson v ++ rbrace :: rest)) =
            some (v, rbrace :: rest) := by
          have PV := (IH (N - 1) (by omega)).1
          apply PV v (by omega) g (rbrace :: rest) _
          · simp only [mfuel] at hf
            omega
          · exact ⟨by decide, by decide⟩
          · obtain ⟨c0, t0, hc0, hw0, _⟩ := printJson_head v
            rw [skipWs_space, hc0, List.cons_append, skipWs_cons_of_not_ws hw0,
              ← List.cons_append, ← hc0]
        have hfin := pm_last g input _ k.data _ v
          (' ' :: (printJson v ++ rbrace :: rest)) (rbrace :: rest) rest hi2 hk
          (skipWs_cons_of_not_ws (by decide) _) hvv
          (skipWs_cons_of_not_ws (by decide) rest)
        rw [mk_data] at hfin
        exact hfin
      · have hsv2 := json_sizeOf_pos v2
        have hskvs2 := list_sizeOf_pos kvs2
        have hszkvs : sizeOf ((k2, v2) :: kvs2) = 1 + (1 + sizeOf k2 + sizeOf v2) + sizeOf kvs2 := by
          simp_arith
        rw [hszkvs] at hN
        have hi2 : skipWs input =
            '"' :: (escString k.data ++ '"' :: (':' :: ' ' ::
              (printJson v ++ ',' :: ' ' :: (printMembers ((k2, v2) :: kvs2) ++ rbrace :: rest)))) := by
          rw [hi]
          simp [printMembers]
        have hlen : k.data.length <
            (escString k.data ++ '"' :: (':' :: ' ' ::
              (printJson v ++ ',' :: ' ' :: (printMembers ((k2, v2) :: kvs2) ++ rbrace :: rest)))).length + 1 := by
          have := escString_length_ge k.data
          simp only [List.length_append, List.length_cons]
          omega
        have hk := parseStringBody_escString k.data _
          (':' :: ' ' :: (printJson v ++ ',' :: ' ' ::
            (printMembers ((k2, v2) :: kvs2) ++ rbrace :: rest))) hlen
        have hvv : parseVal g (' ' :: (printJson v ++ ',' :: ' ' ::
            (printMembers ((k2, v2) :: kvs2) ++ rbrace :: rest))) =
            some (v, ',' :: ' ' :: (printMembers ((k2, v2) :: kvs2) ++ rbrace :: rest)) := by
          have PV := (IH (N - 1) (by omega)).1
          apply PV v (by omega) g _ _
          · simp only [mfuel] at hf
            omega
          · exact ⟨by decide, by decide⟩
          · obtain ⟨c0, t0, hc0, hw0, _⟩ := printJson_head v
            rw [skipWs_space, hc0, List.cons_append, skipWs_cons_of_not_ws hw0,
              ← List.cons_append, ← hc0]
        have hm2 : parseMembers g (' ' :: (printMembers ((k2, v2) :: kvs2) ++ rbrace :: rest)) =
            some ((k2, v2) :: kvs2, rest) := by
          have PM := (IH (N - 1) (by omega)).2.2
          apply PM k2 v2 kvs2 (by omega) g rest
          · simp only [mfuel] at hf ⊢
            omega
          · obtain ⟨t2, ht2⟩ := printMembers_cons_head k2 v2 kvs2
            rw [skipWs_space, ht2, List.cons_append, skipWs_cons_of_not_ws (by decide),
              ← List.cons_append, ← ht2]
        have hfin := pm_step g input _ k.data _ v _ _
          (' ' :: (printMembers ((k2, v2) :: kvs2) ++ rbrace :: rest)) rest
          ((k2, v2) :: kvs2) hi2 hk (skipWs_cons_of_not_ws (by decide) _) hvv
          (skipWs_cons_of_not_ws (by decide) _) hm2
        rw [mk_data] at hfin
        exact hfin

theorem parseVal_print (j : Json) (fuel : Nat) (rest input : List Char)
    (hf : jfuel j ≤ fuel) (hr : numSafe rest)
    (hi : skipWs input = printJson j ++ rest) :
    parseVal fuel input = some (j, rest) :=
  (parse_print_all (sizeOf j)).1 j le_rfl fuel rest input hf hr hi

/-! ### The default fuel of loads suffices for printed values -/

theorem fuel_le_all (N : Nat) :
    (∀ j : Json, sizeOf j ≤ N → jfuel j ≤ (printJson j).length) ∧
    (∀ l : List Json, sizeOf l ≤ N → efuel l ≤ (printElems l).length + 1) ∧
    (∀ l : List (String × Json), sizeOf l ≤ N →
      mfuel l ≤ (printMembers l).length + 1) := by
  induction N using Nat.strong_induction_on with
  | _ N IH =>
  refine ⟨?_, ?_, ?_⟩
  · intro j hN
    cases j with
    | null => simp [jfuel, printJson]
    | bool b => cases b <;> simp [jfuel, printJson]
    | int m =>
      obtain ⟨c, t, hct, _⟩ := printInt_cons m
      simp only [jfuel, printJson, hct, List.length_cons]
      omega
    | flt m e =>
      obtain ⟨c, t, hct, _⟩ := printFlt_cons m e
      simp only [jfuel, printJson, hct, List.length_cons]
      omega
    | str s =>
      simp only [jfuel, printJson, List.length_cons, List.length_append]
      omega
    | arr xs =>
      simp_arith at hN
      have hE := (IH (N - 1) (by have := list_sizeOf_pos xs; omega)).2.1 xs (by omega)
      simp only [jfuel, printJson, List.length_cons, List.length_append]
      simp at hE ⊢
      omega
    | obj kvs =>
      simp_arith at hN
      have hM := (IH (N - 1) (by have := list_sizeOf_pos kvs; omega)).2.2 kvs (by omega)
      simp only [jfuel, printJson, List.length_cons, List.length_append]
      simp at hM ⊢
      omega
  · intro l hN
    cases l with
    | nil => simp [efuel, printElems]
    | cons x xs =>
      simp_arith at hN
      have hxpos := json_sizeOf_pos x
      have hxspos := list_sizeOf_pos xs
      have hJ := (IH (N - 1) (by omega)).1 x (by omega)
      cases xs with
      | nil =>
        simp only [efuel, printElems, List.length_cons]
        simp [efuel]
        omega
      | cons y ys =>
        have hdexp : sizeOf (y :: ys) = 1 + sizeOf y + sizeOf ys := by simp_arith
        have hE := (IH (N - 1) (by omega)).2.1 (y :: ys) (by omega)
        simp only [efuel, printElems, List.length_append, List.length_cons] at hE ⊢
        omega
  · intro l hN
    cases l with
    | nil => simp [mfuel, printMembers]
    | cons kv kvs =>
      obtain ⟨k, v⟩ := kv
      simp_arith at hN
      have hvpos := json_sizeOf_pos v
      have hkvspos := list_sizeOf_pos kvs
      have hJ := (IH (N - 1) (by omega)).1 v (by omega)
      cases kvs with
      | nil =>
        simp only [mfuel, printMembers, List.length_cons, List.length_append]
        simp [mfuel]
        omega
      | cons kv2 kvs2 =>
        have hdexp : sizeOf (kv2 :: kvs2) = 1 + sizeOf kv2 + sizeOf kvs2 := by simp_arith
        have hM := (IH (N - 1) (by omega)).2.2 (kv2 :: kvs2) (by omega)
        simp only [mfuel, printMembers, List.length_append, List.length_cons] at hM ⊢
        omega

/-- The serializer-then-parser round trip: `json.loads(json.dumps(j))`
recovers `j` exactly. -/
theorem loads_dumps (j : Json) : Json.loads (Json.dumps j) = some j := by
  have hju : jfuel j ≤ (printJson j).length + 1 := by
    have := (fuel_le_all (sizeOf j)).1 j le_rfl
    omega
  obtain ⟨c, t, hct, hws, _⟩ := printJson_head j
  have hskip : skipWs (printJson j) = printJson j ++ ([] : List Char) := by
    rw [List.append_nil, hct]
    exact skipWs_cons_of_not_ws hws t
  have hpv := parseVal_print j ((printJson j).length + 1) [] (printJson j) hju trivial hskip
  unfold Json.loads Json.dumps
  have hdata : (String.mk (printJson j)).data = printJson j := rfl
  rw [hdata, hpv]
  rfl

theorem vecOfJson_toJson (v : List PyFloat) :
    vecOfJson? (v.map PyFloat.toJson) = some v := by
  induction v with
  | nil => rfl
  | cons x v ih => simp [vecOfJson?, PyFloat.toJson, PyFloat.ofJson?, ih]

/-- Embedding vectors round-trip through their stored serialized form with
exact equality. -/
theorem decodeVec_dumps (v : List PyFloat) :
    decodeVec (Json.dumps (vecJson v)) = some v := by
  have h1 : Json.dumps (vecJson v) = Json.dumps (.arr (v.map PyFloat.toJson)) := rfl
  unfold decodeVec
  rw [h1, loads_dumps (.arr (v.map PyFloat.toJson))]
  exact vecOfJson_toJson v

/-! ### Database-level facts -/

theorem insertRow_rows (db : DB) (r : Row) :
    (db.insertRow r).rows = db.rows ++ [r] := by
  unfold DB.insertRow
  by_cases h : db.hasTrigger <;> simp [h]

theorem insertRow_hasTrigger (db : DB) (r : Row) :
    (db.insertRow r).hasTrigger = db.hasTrigger := by
  unfold DB.insertRow
  by_cases h : db.hasTrigger <;> simp [h]

theorem insertRow_vssRows_of_trigger (db : DB) (r : Row) (h : db.hasTrigger = true) :
    (db.insertRow r).vssRows = db.vssRows ++ [(db.rows.length + 1, r.text_embedding)] := by
  unfold DB.insertRow
  simp [h]

theorem insertMany_rows (db : DB) (rs : List Row) :
    (db.insertMany rs).rows = db.rows ++ rs := by
  induction rs generalizing db with
  | nil => simp [DB.insertMany]
  | cons r rs ih =>
    have h1 : db.insertMany (r :: rs) = (db.insertRow r).insertMany rs := rfl
    rw [h1, ih, insertRow_rows]
    simp

/-- The trigger is atomic with its insert: one `INSERT INTO {table}`
statement leaves the primary table and the index in exact correspondence
again. -/
theorem insertRow_synced (db : DB) (r : Row) (htrig : db.hasTrigger = true)
    (hsync : Synced db) : Synced (db.insertRow r) := by
  unfold Synced at hsync ⊢
  rw [insertRow_rows, insertRow_vssRows_of_trigger db r htrig, hsync]
  rw [List.enum_append]
  simp [List.enumFrom]

theorem insertMany_synced (db : DB) (rs : List Row) (htrig : db.hasTrigger = true)
    (hsync : Synced db) : Synced (db.insertMany rs) := by
  induction rs generalizing db with
  | nil => exact hsync
  | cons r rs ih =>
    have h1 : db.insertMany (r :: rs) = (db.insertRow r).insertMany rs := rfl
    rw [h1]
    exact ih _ (by rw [insertRow_hasTrigger]; exact htrig)
      (insertRow_synced db r htrig hsync)

theorem insertMany_hasTrigger (db : DB) (rs : List Row) :
    (db.insertMany rs).hasTrigger = db.hasTrigger := by
  induction rs generalizing db with
  | nil => rfl
  | cons r rs ih =>
    have h1 : db.insertMany (r :: rs) = (db.insertRow r).insertMany rs := rfl
    rw [h1, ih, insertRow_hasTrigger]

/-- A synchronized index holds, for each of its entries, exactly the
primary row the entry's rowid points at, with the same embedding blob. -/
theorem synced_correspondence (db : DB) (hsync : Synced db) :
    ∀ p ∈ db.vssRows, ∃ r, db.rows.get? (p.1 - 1) = some r ∧ p.2 = r.text_embedding := by
  intro p hp
  rw [hsync] at hp
  obtain ⟨a, ha, hpa⟩ := List.mem_map.mp hp
  refine ⟨a.2, ?_, ?_⟩
  · have hget : db.rows[a.1]? = some a.2 := List.mem_enum_iff_getElem?.mp ha
    rw [← hpa]
    simpa [List.get?_eq_getElem?] using hget
  · rw [← hpa]

theorem dataInput_length_matching (f : EmbedFn) (texts : List String)
    (metadatas : Option (List Json))
    (hm : metadatas = none ∨ ∃ l, metadatas = some l ∧ l.length = texts.length) :
    (dataInput f texts metadatas).length = texts.length := by
  rcases hm with hm | ⟨l, hm, hl⟩
  · subst hm
    simp [dataInput, pyTruthy, embed_documents]
  · subst hm
    cases l with
    | nil =>
      have : texts = [] := List.length_eq_zero.mp (by simpa using hl.symm)
      subst this
      simp [dataInput, pyTruthy, embed_documents]
    | cons m ms =>
      simp at hl
      simp [dataInput, pyTruthy, embed_documents, List.length_zip]
      omega

theorem dataInput_length_some (f : EmbedFn) (texts : List String) (mds : List Json)
    (hne : mds ≠ []) :
    (dataInput f texts (some mds)).length = min texts.length mds.length := by
  cases mds with
  | nil => exact absurd rfl hne
  | cons m ms =>
    simp [dataInput, pyTruthy, embed_documents, List.length_zip]
    omega

theorem dataInput_metadata_none (f : EmbedFn) (texts : List String) :
    ∀ r ∈ dataInput f texts none, r.metadata = Json.dumps (Json.obj []) := by
  intro r hr
  simp only [dataInput, pyTruthy, embed_documents, if_neg] at hr
  obtain ⟨p, hp, hpr⟩ := List.mem_map.mp hr
  obtain ⟨-, hp2⟩ := List.of_mem_zip hp
  obtain ⟨hp21, -⟩ := List.of_mem_zip hp2
  obtain ⟨-, -, hconst⟩ := List.mem_map.mp hp21
  rw [← hpr]
  simp [← hconst]

theorem buildDocs_mem (ts : List (String × String × Frac))
    (l : List (Document × Frac)) (h : buildDocs ts = .ok l) :
    ∀ p ∈ l, ∃ t ∈ ts, Json.loads t.2.1 = some p.1.metadata := by
  induction ts generalizing l with
  | nil =>
    simp only [buildDocs] at h
    cases h
    simp
  | cons t ts ih =>
    simp only [buildDocs] at h
    rcases hload : Json.loads t.2.1 with _ | md
    · rw [hload] at h
      cases h
    · rw [hload] at h
      rcases hrec : buildDocs ts with e | l2
      · rw [hrec] at h
        cases h
      · rw [hrec] at h
        cases h
        intro p hp
        rcases List.mem_cons.mp hp with hp | hp
        · subst hp
          exact ⟨t, by simp, hload⟩
        · obtain ⟨t2, ht2, hl2⟩ := ih l2 hrec p hp
          exact ⟨t2, by simp [ht2], hl2⟩

theorem knnSearch_metadata_mem (db : DB) (v : List PyFloat) (k : Nat) :
    ∀ t ∈ db.knnSearch v k, ∃ r ∈ db.rows, t.2.1 = r.metadata := by
  intro t ht
  obtain ⟨p, hp, hpt⟩ := List.mem_filterMap.mp ht
  rcases hget : db.rows.get? (p.1 - 1) with _ | r
  · rw [hget] at hpt
    cases hpt
  · rw [hget] at hpt
    cases hpt
    exact ⟨r, List.get?_mem hget, rfl⟩

/-! ### The claims -/

/-- C1: synchronization invariant — on a database whose `embed_text`
trigger exists and whose vector index is in exact correspondence with the
primary table, `add_texts` succeeds and restores the correspondence: every
primary rowid has exactly its own `(rowid, embedding-blob)` index entry,
the index holds nothing else, and each single `INSERT` statement (trigger
included, hence atomically with the insert) preserves the
correspondence. -/
theorem c1_trigger_sync_invariant (st : SQLiteVSS) (db : DB) (texts : List String)
    (metadatas : Option (List Json)) (hconn : st._connection = some db)
    (htrig : db.hasTrigger = true) (hsync : Synced db) :
    SQLiteVSS.add_texts st texts metadatas =
        Except.ok { st with _connection := some (db.addTexts st._embedding texts metadatas) } ∧
    Synced (db.addTexts st._embedding texts metadatas) ∧
    (∀ p ∈ (db.addTexts st._embedding texts metadatas).vssRows,
      ∃ r, (db.addTexts st._embedding texts metadatas).rows.get? (p.1 - 1) = some r ∧
        p.2 = r.text_embedding) ∧
    (∀ (db2 : DB) (r : Row), db2.hasTrigger = true → Synced db2 →
      Synced (db2.insertRow r)) := by
  have hsync2 : Synced (db.addTexts st._embedding texts metadatas) :=
    insertMany_synced db _ htrig hsync
  exact ⟨by simp [SQLiteVSS.add_texts, hconn], hsync2,
    synced_correspondence _ hsync2, insertRow_synced⟩

/-- Witness for C1 on a concrete store: a fresh schema-initialized database
receiving one text stays synchronized. -/
theorem c1_witness : Synced (dbInit.addTexts stFix._embedding ["foo"] none) :=
  (c1_trigger_sync_invariant stFix dbInit ["foo"] none rfl rfl rfl).2.1

/-- C2: the claim (spec and the repository's own integration test
`test_sqlvss`, which asserts `metadata=None`) says metadata stored as
absent deserializes back to `None`. The code stores `json.dumps({})` and
returns `json.loads` of it, so the search result carries the empty mapping
`{}`, which is not `None`: evaluating the model at the failing input —
texts added with `metadatas` omitted, then a search returning that text —
yields a document whose metadata is the empty object, and the empty object
differs from `null`. -/
theorem c2_absent_metadata_is_empty_dict :
    SQLiteVSS.similarity_search stFix1 "foo" 1 =
        Except.ok [Document.mk "foo" (Json.obj [])] ∧
    Json.obj [] ≠ Json.null :=
  ⟨rfl, fun h => Json.noConfusion h⟩

/-- C3: the score attached to a hit is the relevance transform of its raw
distance, and the transform is monotone non-decreasing, so for any two
returned hits the one with the larger distance has the larger-or-equal
score (score ordering matches distance ordering, ascending together). -/
theorem c3_score_order_matches_distance (st : SQLiteVSS) (db : DB) (v : List PyFloat)
    (k : Nat) (p q : String × String × Frac) (hconn : st._connection = some db)
    (hp : p ∈ db.knnSearch v k) (hq : q ∈ db.knnSearch v k)
    (hle : Frac.leB p.2.2 q.2.2 = true) :
    st.similarity_search_with_score_by_vector v k = buildDocs (db.knnSearch v k) ∧
    Frac.leB (euclideanRelevanceScoreFn p.2.2) (euclideanRelevanceScoreFn q.2.2) = true :=
  ⟨by simp [SQLiteVSS.similarity_search_with_score_by_vector, hconn, DB.runQuery], hle⟩

/-- Witness for C3 on a concrete store with two hits at distances 0 and 9
(squared). -/
theorem c3_witness :
    SQLiteVSS.similarity_search_with_score_by_vector stFix1 (embFix "foo") 4 =
        buildDocs (dbFix1.knnSearch (embFix "foo") 4) ∧
    Frac.leB (euclideanRelevanceScoreFn ⟨0, 10000⟩)
      (euclideanRelevanceScoreFn ⟨90000, 10000⟩) = true :=
  c3_score_order_matches_distance stFix1 dbFix1 (embFix "foo") 4
    ("foo", Json.dumps (Json.obj []), ⟨0, 10000⟩)
    ("bazzzz", Json.dumps (Json.obj []), ⟨90000, 10000⟩)
    rfl (by decide) (by decide) (by decide)

/-- C4 counterexample: on a store whose vector table has dimensionality 1,
a query vector of length 2 does not raise any error and the search is
issued and returns hits — so the claim that such a call raises
`DimensionMismatchError` and performs no search is false at this input
(no such error type exists in the code, and no dimension check is
performed). -/
theorem c4_counterexample :
    SQLiteVSS.similarity_search_with_score_by_vector stFix1 [⟨10, 0⟩, ⟨20, 0⟩] 4 =
        Except.ok [(Document.mk "foo" (Json.obj []), ⟨8000000, 1000000⟩),
          (Document.mk "bazzzz" (Json.obj []), ⟨29000000, 1000000⟩)] ∧
    dbFix1.vssDim = some 1 ∧
    ([⟨10, 0⟩, ⟨20, 0⟩] : List PyFloat).length ≠ 1 ∧
    (dbFix1.knnSearch [⟨10, 0⟩, ⟨20, 0⟩] 4).length = 2 :=
  ⟨rfl, rfl, by decide, rfl⟩

/-- C4 as amended: the query path performs no dimensionality validation —
even when the query vector's length differs from the table's fixed
dimensionality, the k-NN query is issued against the vector index exactly
as in the matching case, and no `DimensionMismatchError` exists in this
code. -/
theorem c4_no_dimension_check (st : SQLiteVSS) (db : DB) (v : List PyFloat)
    (k D : Nat) (hconn : st._connection = some db) (hdim : db.vssDim = some D)
    (hlen : v.length ≠ D) :
    st.similarity_search_with_score_by_vector v k = buildDocs (db.knnSearch v k) := by
  simp [SQLiteVSS.similarity_search_with_score_by_vector, hconn, DB.runQuery]

/-- Witness for C4's amended statement at the concrete mismatched input. -/
theorem c4_witness :
    SQLiteVSS.similarity_search_with_score_by_vector stFix1 [⟨10, 0⟩, ⟨20, 0⟩] 4 =
      buildDocs (dbFix1.knnSearch [⟨10, 0⟩, ⟨20, 0⟩] 4) :=
  c4_no_dimension_check stFix1 dbFix1 [⟨10, 0⟩, ⟨20, 0⟩] 4 1 rfl rfl (by decide)

/-- C5: the three derived entry points delegate to
`similarity_search_with_score_by_vector` on the same effective vector, so
all three return exactly its ranking — the two document-only entry points
are its document components in the same order, and
`similarity_search_with_score` is it verbatim. -/
theorem c5_entry_points_agree (st : SQLiteVSS) (query : String) (k : Nat)
    (v : List PyFloat) (hv : embed_query st._embedding query = v) :
    SQLiteVSS.similarity_search st query k =
        Except.map (List.map Prod.fst) (st.similarity_search_with_score_by_vector v k) ∧
    SQLiteVSS.similarity_search_by_vector st v k =
        Except.map (List.map Prod.fst) (st.similarity_search_with_score_by_vector v k) ∧
    SQLiteVSS.similarity_search_with_score st query k =
        st.similarity_search_with_score_by_vector v k := by
  subst hv
  exact ⟨rfl, rfl, rfl⟩

/-- Witness for C5 on the concrete store and query text. -/
theorem c5_witness :
    SQLiteVSS.similarity_search stFix1 "foo" 1 =
        Except.map (List.map Prod.fst)
          (stFix1.similarity_search_with_score_by_vector (embFix "foo") 1) ∧
    SQLiteVSS.similarity_search_by_vector stFix1 (embFix "foo") 1 =
        Except.map (List.map Prod.fst)
          (stFix1.similarity_search_with_score_by_vector (embFix "foo") 1) ∧
    SQLiteVSS.similarity_search_with_score stFix1 "foo" 1 =
        stFix1.similarity_search_with_score_by_vector (embFix "foo") 1 :=
  c5_entry_points_agree stFix1 "foo" 1 (embFix "foo") rfl

/-- C6: schema creation is idempotent — through a live connection
`create_table_if_not_exists` succeeds, and the DDL effect applied twice
with the same arguments equals the effect applied once (no duplicate
objects, since each object is a flag that is only ever set), while stored
rows and index entries are untouched by any call. -/
theorem c6_schema_idempotent (st : SQLiteVSS) (db : DB)
    (hconn : st._connection = some db) :
    SQLiteVSS.create_table_if_not_exists st =
        Except.ok { st with _connection := some (db.createSchema st._embedding) } ∧
    DB.createSchema st._embedding (DB.createSchema st._embedding db) =
        DB.createSchema st._embedding db ∧
    (DB.createSchema st._embedding db).rows = db.rows ∧
    (DB.createSchema st._embedding db).vssRows = db.vssRows := by
  refine ⟨by simp [SQLiteVSS.create_table_if_not_exists, hconn], ?_, ?_, ?_⟩ <;>
  · unfold DB.createSchema
    by_cases h1 : db.hasTable <;> by_cases h2 : db.hasVss <;>
      by_cases h3 : db.hasTrigger <;> simp [h1, h2, h3]

/-- Witness for C6 on a fresh database. -/
theorem c6_witness :
    DB.createSchema stRaw._embedding (DB.createSchema stRaw._embedding emptyDB) =
      DB.createSchema stRaw._embedding emptyDB :=
  (c6_schema_idempotent stRaw emptyDB rfl).2.1

/-- C7: with `metadatas` omitted or of the same length as `texts`,
`add_texts` succeeds, the primary table's row count grows by exactly
`texts.length`, and every previously stored row is left in place
unchanged (the old rows are exactly the prefix of the new table). -/
theorem c7_add_texts_growth (st : SQLiteVSS) (db : DB) (texts : List String)
    (metadatas : Option (List Json)) (hconn : st._connection = some db)
    (hm : metadatas = none ∨ ∃ l, metadatas = some l ∧ l.length = texts.length) :
    SQLiteVSS.add_texts st texts metadatas =
        Except.ok { st with _connection := some (db.addTexts st._embedding texts metadatas) } ∧
    (db.addTexts st._embedding texts metadatas).rows.length =
        db.rows.length + texts.length ∧
    (db.addTexts st._embedding texts metadatas).rows.take db.rows.length = db.rows := by
  refine ⟨by simp [SQLiteVSS.add_texts, hconn], ?_, ?_⟩
  · rw [DB.addTexts, insertMany_rows, List.length_append,
      dataInput_length_matching _ _ _ hm]
  · rw [DB.addTexts, insertMany_rows, List.take_left]

/-- Witness for C7: two texts added to the concrete store grow the table
by two rows. -/
theorem c7_witness :
    (dbInit.addTexts stFix._embedding ["a", "b"] none).rows.length =
      dbInit.rows.length + 2 :=
  (c7_add_texts_growth stFix dbInit ["a", "b"] none rfl (Or.inl rfl)).2.1

/-- C8: serialization round-trip — deserializing the stored serialized
form recovers the original exactly, both for any metadata value
(`json.loads (json.dumps j) = j`) and for any embedding vector of floats
(with exact equality of the decimal float values). -/
theorem c8_serialization_roundtrip :
    (∀ j : Json, Json.loads (Json.dumps j) = some j) ∧
    (∀ v : List PyFloat, decodeVec (Json.dumps (vecJson v)) = some v) :=
  ⟨loads_dumps, decodeVec_dumps⟩

/-- C9 counterexample: constructing with `connection=None` does not fail
at the schema-creation step by dereferencing a stored `None` — it fails
earlier, inside `create_connection` itself, with `NameError` (the name
`sqlite_vss` is bound only locally in `__init__`, never as the module
global that `create_connection` reads). The constructor's result is that
`NameError`, not the `AttributeError` the claimed mechanism would produce,
so the created-then-discarded connection never comes into being and no
attribute is ever stored. -/
theorem c9_counterexample :
    SQLiteVSS.init "test" none embFix "vss.db" =
        Except.error PyError.nameErrorSqliteVss ∧
    create_connection "vss.db" = Except.error PyError.nameErrorSqliteVss ∧
    SQLiteVSS.init "test" none embFix "vss.db" ≠
        Except.error PyError.attributeErrorNone :=
  ⟨rfl, rfl, fun h => PyError.noConfusion (Except.error.inj h)⟩

/-- C9 as amended: every call to `create_connection` raises `NameError`
(the runtime never binds the module-global `sqlite_vss` it reads), so
`__init__` with `connection=None` fails inside `create_connection`, before
any attribute is stored and before the schema-creation step can run; with
a real connection supplied, `create_connection` is never called and
construction stores that connection and creates the schema normally. -/
theorem c9_construction_fails_inside_create_connection (table db_file : String)
    (emb : EmbedFn) :
    create_connection db_file = Except.error PyError.nameErrorSqliteVss ∧
    SQLiteVSS.init table none emb db_file =
        Except.error PyError.nameErrorSqliteVss ∧
    (∀ db : DB, SQLiteVSS.init table (some db) emb db_file =
      Except.ok (⟨some (db.createSchema emb), table, emb⟩ : SQLiteVSS)) :=
  ⟨rfl, rfl, fun _ => rfl⟩

/-- C10: when a non-empty `metadatas` list of length different from
`texts` is passed, no error is raised — `add_texts` succeeds and inserts
exactly `min texts.length metadatas.length` rows, the `zip` silently
truncating the pairing to the shortest sequence. -/
theorem c10_zip_truncates (st : SQLiteVSS) (db : DB) (texts : List String)
    (mds : List Json) (hconn : st._connection = some db) (hne : mds ≠ []) :
    SQLiteVSS.add_texts st texts (some mds) =
        Except.ok { st with _connection := some (db.addTexts st._embedding texts (some mds)) } ∧
    (db.addTexts st._embedding texts (some mds)).rows.length =
        db.rows.length + min texts.length mds.length := by
  refine ⟨by simp [SQLiteVSS.add_texts, hconn], ?_⟩
  rw [DB.addTexts, insertMany_rows, List.length_append, dataInput_length_some _ _ _ hne]

/-- Witness for C10: two texts with one metadata entry insert exactly one
row. -/
theorem c10_witness :
    (dbInit.addTexts stFix._embedding ["a", "b"] (some [Json.obj []])).rows.length =
      dbInit.rows.length + 1 :=
  (c10_zip_truncates stFix dbInit ["a", "b"] [Json.obj []] rfl
    (List.cons_ne_nil _ _)).2

end SqliteVss
